import Mathlib

/-!
Shallow embedding of the `lightning` spot-trading core (Rust) in Lean 4.

Modelling conventions, used throughout:
* `rust_decimal::Decimal` values (prices, quantities, balances) are modelled as `Rat`.
  Every arithmetic operation the embedded code performs (`+`, `-`, `*`, `min`, comparisons)
  agrees with `Decimal` on the magnitudes the system handles; `Decimal.to_string` /
  `from_str_exact` round-trips are exact, so a value serialised and re-parsed is the value.
* `i32` / `i64` are modelled as `Int`, `u64` as `Nat`. Rust's `%` on `i32` is truncated
  remainder, modelled by `Int.tmod`; `.abs() as usize` is `Int.natAbs`.
* String inputs that the source immediately parses with `Decimal::from_str_exact` are
  modelled as `Option Rat`: `none` is a string that fails to parse, `some q` a string
  parsing to `q`.
* `std::time::SystemTime::now()` reads (order/trade timestamps and the clock-derived
  trade ids) are modelled by an explicit `now : Nat` parameter threaded where the
  source reads the clock.
* `BTreeMap<Decimal, PriceLevel>` is an association list `List (Rat × PriceLevel)`
  kept sorted strictly ascending by key, iterated in key order like the source map.
  `HashMap` is an association list with insert-replaces-existing-key semantics.
  `VecDeque<Order>` is a `List Order` whose head is the queue front.
-/

namespace Lightning

/-- Key lookup in an association-list map (`HashMap::get` / `BTreeMap::get`). -/
def assocGet {κ α : Type} [DecidableEq κ] : List (κ × α) → κ → Option α
  | [], _ => none
  | (k', v) :: rest, k => if k' = k then some v else assocGet rest k

/-- Key insert/replace in an association-list map (`HashMap::insert`; also the
write-back of a `get_mut` mutation, which keeps the entry in place). -/
def assocInsert {κ α : Type} [DecidableEq κ] : List (κ × α) → κ → α → List (κ × α)
  | [], k, v => [(k, v)]
  | (k', v') :: rest, k, v =>
    if k' = k then (k, v) :: rest else (k', v') :: assocInsert rest k v

/-- Key removal (`HashMap::remove` / `BTreeMap::remove`). -/
def assocRemove {κ α : Type} [DecidableEq κ] : List (κ × α) → κ → List (κ × α)
  | [], _ => []
  | (k', v') :: rest, k => if k' = k then rest else (k', v') :: assocRemove rest k

/-- matching.rs `OrderStatus`. -/
inductive OrderStatus where
  | Pending
  | PartialFill
  | Filled
  | Cancelled
deriving DecidableEq, Repr

/-- matching.rs `OrderType`. -/
inductive OrderType where
  | Limit
  | Market
deriving DecidableEq, Repr

/-- matching.rs `impl From<i32> for OrderType`: codes other than 0/1 silently
default to `Limit` (source comment: 默认限价单). -/
def OrderType.fromI32 (value : Int) : OrderType :=
  match value with
  | 0 => .Limit
  | 1 => .Market
  | _ => .Limit

/-- matching.rs `OrderSide`. -/
inductive OrderSide where
  | Bid
  | Ask
deriving DecidableEq, Repr

/-- matching.rs `impl From<i32> for OrderSide`: codes other than 0/1 silently
default to `Bid` (source comment: 默认买入). -/
def OrderSide.fromI32 (value : Int) : OrderSide :=
  match value with
  | 0 => .Bid
  | 1 => .Ask
  | _ => .Bid

/-- matching.rs `Order`. `request_id : Uuid` is modelled as an opaque `Nat`. -/
structure Order where
  id : Nat
  request_id : Nat
  symbol_id : Int
  account_id : Int
  order_type : OrderType
  side : OrderSide
  price : Rat
  quantity : Rat
  filled_quantity : Rat
  status : OrderStatus
  created_at : Nat
deriving DecidableEq, Repr

/-- matching.rs `Order::remaining_quantity`. -/
def Order.remaining_quantity (o : Order) : Rat :=
  o.quantity - o.filled_quantity

/-- matching.rs `Order::is_filled` (`filled_quantity >= quantity`). -/
def Order.is_filled (o : Order) : Prop :=
  o.quantity ≤ o.filled_quantity

instance (o : Order) : Decidable o.is_filled := by
  unfold Order.is_filled; infer_instance

/-- matching.rs `Trade`. -/
structure Trade where
  id : Nat
  symbol_id : Int
  buy_order_id : Nat
  sell_order_id : Nat
  buy_account_id : Int
  sell_account_id : Int
  price : Rat
  quantity : Rat
  created_at : Nat
deriving DecidableEq, Repr

/-- matching.rs `PriceLevel`. -/
structure PriceLevel where
  price : Rat
  total_quantity : Rat
  orders : List Order
deriving DecidableEq, Repr

/-- matching.rs `PriceLevel::new`. -/
def PriceLevel.new (price : Rat) : PriceLevel :=
  { price := price, total_quantity := 0, orders := [] }

/-- matching.rs `PriceLevel::add_order` (`push_back`: appended at the tail). -/
def PriceLevel.add_order (lvl : PriceLevel) (o : Order) : PriceLevel :=
  { lvl with
    total_quantity := lvl.total_quantity + o.remaining_quantity
    orders := lvl.orders ++ [o] }

/-- matching.rs `PriceLevel::remove_order`: remove the first order with the id,
returning it, and subtract its remaining quantity. -/
def PriceLevel.remove_order (lvl : PriceLevel) (order_id : Nat) : Option Order × PriceLevel :=
  match lvl.orders.find? (fun o => o.id == order_id) with
  | none => (none, lvl)
  | some o =>
    (some o,
      { lvl with
        total_quantity := lvl.total_quantity - o.remaining_quantity
        orders := lvl.orders.eraseP (fun o' => o'.id == order_id) })

/-- matching.rs `PriceLevel::is_empty`. -/
def PriceLevel.is_empty (lvl : PriceLevel) : Prop :=
  lvl.orders = []

instance (lvl : PriceLevel) : Decidable lvl.is_empty := by
  unfold PriceLevel.is_empty; infer_instance

/-- matching.rs `PriceLevel::update_quantity`. -/
def PriceLevel.update_quantity (lvl : PriceLevel) : PriceLevel :=
  { lvl with total_quantity := (lvl.orders.map Order.remaining_quantity).sum }

/-- matching.rs `OrderBook`. `bids`/`asks` are the two `BTreeMap`s (ascending key
order, as the source iterates them); `orders` is the `HashMap` index. -/
structure OrderBook where
  symbol_id : Int
  bids : List (Rat × PriceLevel)
  asks : List (Rat × PriceLevel)
  orders : List (Nat × Order)
deriving DecidableEq, Repr

/-- matching.rs `OrderBook::new`. -/
def OrderBook.new (symbol_id : Int) : OrderBook :=
  { symbol_id := symbol_id, bids := [], asks := [], orders := [] }

/-- The opposite-side map a taker of the given side matches against
(`match taker_order.side { Bid => &mut self.asks, Ask => &mut self.bids }`). -/
def OrderBook.oppSide (ob : OrderBook) (side : OrderSide) : List (Rat × PriceLevel) :=
  match side with
  | .Bid => ob.asks
  | .Ask => ob.bids

/-- Write the opposite-side map back (the `&mut` borrow in `match_at_price`). -/
def OrderBook.setOppSide (ob : OrderBook) (side : OrderSide) (b : List (Rat × PriceLevel)) :
    OrderBook :=
  match side with
  | .Bid => { ob with asks := b }
  | .Ask => { ob with bids := b }

/-- matching.rs `OrderBook::match_at_price`: match the incoming taker against
the single front maker of the level at `price` on the opposite side. Returns
the optional trade, the updated taker, and the updated book. The source's
clock-derived trade id and timestamp are both modelled by `now`. -/
def OrderBook.match_at_price (ob : OrderBook) (taker : Order) (price : Rat) (now : Nat) :
    Option Trade × Order × OrderBook :=
  let book := ob.oppSide taker.side
  match assocGet book price with
  | none => (none, taker, ob)
  | some price_level =>
    match price_level.orders with
    | [] => (none, taker, ob)
    | maker :: rest =>
      let trade_quantity := min taker.remaining_quantity maker.remaining_quantity
      let taker' := { taker with filled_quantity := taker.filled_quantity + trade_quantity }
      let maker' := { maker with filled_quantity := maker.filled_quantity + trade_quantity }
      let trade : Trade :=
        match taker.side with
        | .Bid =>
          { id := now, symbol_id := taker.symbol_id
            buy_order_id := taker'.id, sell_order_id := maker'.id
            buy_account_id := taker'.account_id, sell_account_id := maker'.account_id
            price := price, quantity := trade_quantity, created_at := now }
        | .Ask =>
          { id := now, symbol_id := taker.symbol_id
            buy_order_id := maker'.id, sell_order_id := taker'.id
            buy_account_id := maker'.account_id, sell_account_id := taker'.account_id
            price := price, quantity := trade_quantity, created_at := now }
      let maker'' :=
        if maker'.is_filled then { maker' with status := .Filled }
        else { maker' with status := .PartialFill }
      let lvl' :=
        if maker'.is_filled then { price_level with orders := rest }
        else { price_level with orders := maker'' :: rest }
      let lvl' := lvl'.update_quantity
      let book' := assocInsert book price lvl'
      let book' := if lvl'.is_empty then assocRemove book' price else book'
      let ob' := ob.setOppSide taker.side book'
      (some trade, taker', { ob' with orders := assocInsert ob'.orders maker''.id maker'' })

/-- The `for price in prices_to_match` loop shared by both arms of
matching.rs `OrderBook::match_limit_order`: stop early when the taker has no
remaining quantity, otherwise call `match_at_price` once per price. -/
def OrderBook.match_prices (ob : OrderBook) (taker : Order) (now : Nat) :
    List Rat → List Trade × Order × OrderBook
  | [] => ([], taker, ob)
  | p :: ps =>
    if taker.remaining_quantity ≤ 0 then ([], taker, ob)
    else
      match ob.match_at_price taker p now with
      | (some t, taker', ob') =>
        let r := ob'.match_prices taker' (now + 1) ps
        (t :: r.1, r.2)
      | (none, taker', ob') => ob'.match_prices taker' (now + 1) ps

/-- matching.rs `OrderBook::match_limit_order`. The source collects the eligible
keys of the opposite `BTreeMap` and sorts them (ascending for a Bid taker,
descending for an Ask taker); since the map's keys already iterate in ascending
order, the sort is the identity for Bid and a reversal for Ask. -/
def OrderBook.match_limit_order (ob : OrderBook) (taker : Order) (now : Nat) :
    List Trade × Order × OrderBook :=
  match taker.side with
  | .Bid =>
    let prices_to_match := (ob.asks.map Prod.fst).filter (fun p => decide (p ≤ taker.price))
    ob.match_prices taker now prices_to_match
  | .Ask =>
    let prices_to_match :=
      ((ob.bids.map Prod.fst).filter (fun p => decide (taker.price ≤ p))).reverse
    ob.match_prices taker now prices_to_match

/-- The `while` loop of matching.rs `OrderBook::match_market_order`, with an
explicit fuel bound: while the taker has remaining quantity and the opposite
map is non-empty, match once at the best opposite price (lowest ask for a Bid,
highest bid for an Ask) and stop on a `None` result. -/
def OrderBook.match_market_go (ob : OrderBook) (taker : Order) (now : Nat) :
    Nat → List Trade × Order × OrderBook
  | 0 => ([], taker, ob)
  | fuel + 1 =>
    let best : Option Rat :=
      match taker.side with
      | .Bid => (ob.asks.map Prod.fst).head?
      | .Ask => (ob.bids.map Prod.fst).getLast?
    if 0 < taker.remaining_quantity then
      match best with
      | none => ([], taker, ob)
      | some best_price =>
        match ob.match_at_price taker best_price now with
        | (some t, taker', ob') =>
          let r := ob'.match_market_go taker' (now + 1) fuel
          (t :: r.1, r.2)
        | (none, taker', ob') => ([], taker', ob')
    else ([], taker, ob)

/-- Number of resting orders in the book, used only to bound the market-order
loop's fuel. -/
def OrderBook.order_count (ob : OrderBook) : Nat :=
  (ob.bids.map (fun e => e.2.orders.length)).sum
    + (ob.asks.map (fun e => e.2.orders.length)).sum

/-- matching.rs `OrderBook::match_market_order`. Each loop iteration either
removes a maker from the book or fills the taker, so `order_count + 2` fuel
never runs out before the source's `while` loop exits. -/
def OrderBook.match_market_order (ob : OrderBook) (taker : Order) (now : Nat) :
    List Trade × Order × OrderBook :=
  ob.match_market_go taker now (ob.order_count + 2)

/-- matching.rs `OrderBook::add_order_to_book`
(`book.entry(order.price).or_insert_with(PriceLevel::new).add_order(order)`),
inlined per side; the `BTreeMap` entry insertion keeps the keys sorted. -/
def btreeEntryAdd : List (Rat × PriceLevel) → Rat → Order → List (Rat × PriceLevel)
  | [], p, o => [(p, (PriceLevel.new p).add_order o)]
  | (k, lvl) :: rest, p, o =>
    if p < k then (p, (PriceLevel.new p).add_order o) :: (k, lvl) :: rest
    else if p = k then (k, lvl.add_order o) :: rest
    else (k, lvl) :: btreeEntryAdd rest p o

/-- matching.rs `OrderBook::add_order_to_book`. -/
def OrderBook.add_order_to_book (ob : OrderBook) (o : Order) : OrderBook :=
  match o.side with
  | .Bid => { ob with bids := btreeEntryAdd ob.bids o.price o }
  | .Ask => { ob with asks := btreeEntryAdd ob.asks o.price o }

/-- matching.rs `OrderBook::add_order`: match (market or limit), rest the
residual limit taker in the book, set the taker's final status, and record it
in the order index. -/
def OrderBook.add_order (ob : OrderBook) (order : Order) (now : Nat) :
    List Trade × OrderBook :=
  let r :=
    if order.order_type = .Market then ob.match_market_order order now
    else ob.match_limit_order order now
  let trades := r.1
  let o1 := r.2.1
  let ob1 := r.2.2
  let ob2 :=
    if 0 < o1.remaining_quantity ∧ o1.order_type = .Limit then ob1.add_order_to_book o1
    else ob1
  let o2 :=
    if 0 < o1.filled_quantity then
      if o1.is_filled then { o1 with status := .Filled } else { o1 with status := .PartialFill }
    else o1
  (trades, { ob2 with orders := assocInsert ob2.orders o2.id o2 })

/-- matching.rs `OrderBook::cancel_order`: look the order up in the index,
remove it from its price level, mark it `Cancelled` and keep it in the index;
if it is not found in a level, drop it from the index and return `None`. -/
def OrderBook.cancel_order (ob : OrderBook) (order_id : Nat) : Option Order × OrderBook :=
  match assocGet ob.orders order_id with
  | none => (none, ob)
  | some order =>
    let book :=
      match order.side with
      | .Bid => ob.bids
      | .Ask => ob.asks
    match assocGet book order.price with
    | some price_level =>
      match price_level.remove_order order_id with
      | (some removed, lvl') =>
        let cancelled := { removed with status := .Cancelled }
        let book' := assocInsert book order.price lvl'
        let book' := if lvl'.is_empty then assocRemove book' order.price else book'
        let ob' :=
          match order.side with
          | .Bid => { ob with bids := book' }
          | .Ask => { ob with asks := book' }
        (some cancelled, { ob' with orders := assocInsert ob'.orders order_id cancelled })
      | (none, _) => (none, { ob with orders := assocRemove ob.orders order_id })
    | none => (none, { ob with orders := assocRemove ob.orders order_id })

/-- models.rs `BalanceError`. -/
inductive BalanceError where
  | InsufficientBalance
  | InvalidAmount (msg : String)
  | AccountNotFound
  | CurrencyNotFound
deriving DecidableEq, Repr

/-- The `thiserror` display strings of models.rs `BalanceError`. -/
def BalanceError.toMessage : BalanceError → String
  | .InsufficientBalance => "Insufficient balance"
  | .InvalidAmount msg => "Invalid amount: " ++ msg
  | .AccountNotFound => "Account not found"
  | .CurrencyNotFound => "Currency not found"

/-- `rust_decimal::Decimal::MAX` (= 2^96 − 1), the market-Bid price sentinel of
matching.rs `MatchingEngine::place_order`. -/
def decimalMAX : Rat := 79228162514264337593543950335

instance {ε α : Type} [DecidableEq ε] [DecidableEq α] : DecidableEq (Except ε α) := fun x y =>
  match x, y with
  | .ok a, .ok b =>
    if h : a = b then .isTrue (congrArg Except.ok h)
    else .isFalse (fun he => h (Except.ok.inj he))
  | .error a, .error b =>
    if h : a = b then .isTrue (congrArg Except.error h)
    else .isFalse (fun he => h (Except.error.inj he))
  | .ok _, .error _ => .isFalse (fun he => Except.noConfusion he)
  | .error _, .ok _ => .isFalse (fun he => Except.noConfusion he)

/-- matching.rs `MatchingEngine`. -/
structure MatchingEngine where
  order_books : List (Int × OrderBook)
  next_order_id : Nat
  trades : List Trade
deriving DecidableEq, Repr

/-- matching.rs `MatchingEngine::new`. -/
def MatchingEngine.new : MatchingEngine :=
  { order_books := [], next_order_id := 1, trades := [] }

/-- matching.rs `MatchingEngine::place_order`. `price_parsed`/`quantity_parsed`
are the `Decimal::from_str_exact` results of the source's string arguments. -/
def MatchingEngine.place_order (me : MatchingEngine) (request_id : Nat)
    (symbol_id account_id : Int) (order_type side : Int)
    (price_parsed quantity_parsed : Option Rat) (now : Nat) :
    Except BalanceError ((Nat × List Trade) × MatchingEngine) :=
  match quantity_parsed with
  | none => .error (.InvalidAmount "Invalid quantity format")
  | some quantity =>
    let ot := OrderType.fromI32 order_type
    let sd := OrderSide.fromI32 side
    let priceRes : Except BalanceError Rat :=
      if ot = .Market then
        .ok (match sd with | .Bid => decimalMAX | .Ask => 0)
      else
        match price_parsed with
        | none => .error (.InvalidAmount "Invalid price format")
        | some p => .ok p
    match priceRes with
    | .error e => .error e
    | .ok price =>
      let order_id := me.next_order_id
      let order : Order :=
        { id := order_id, request_id := request_id, symbol_id := symbol_id
          account_id := account_id, order_type := ot, side := sd
          price := price, quantity := quantity, filled_quantity := 0
          status := .Pending, created_at := now }
      let ob :=
        match assocGet me.order_books symbol_id with
        | some ob => ob
        | none => OrderBook.new symbol_id
      let r := ob.add_order order now
      .ok ((order_id, r.1),
        { order_books := assocInsert me.order_books symbol_id r.2
          next_order_id := me.next_order_id + 1
          trades := me.trades ++ r.1 })

/-- matching.rs `MatchingEngine::cancel_order`
(`self.order_books.get_mut(&symbol_id)?.cancel_order(order_id)`). -/
def MatchingEngine.cancel_order (me : MatchingEngine) (symbol_id : Int) (order_id : Nat) :
    Option Order × MatchingEngine :=
  match assocGet me.order_books symbol_id with
  | none => (none, me)
  | some ob =>
    let r := ob.cancel_order order_id
    (r.1, { me with order_books := assocInsert me.order_books symbol_id r.2 })

/-- models.rs `AccountBalance`. -/
structure AccountBalance where
  currency_id : Int
  total : Rat
  frozen : Rat
  available : Rat
deriving DecidableEq, Repr

/-- models.rs `AccountBalance::new`. -/
def AccountBalance.new (currency_id : Int) : AccountBalance :=
  { currency_id := currency_id, total := 0, frozen := 0, available := 0 }

/-- models.rs `AccountBalance::increase`. -/
def AccountBalance.increase (b : AccountBalance) (amount : Rat) :
    Except BalanceError AccountBalance :=
  if amount ≤ 0 then .error (.InvalidAmount "Amount must be positive")
  else .ok { b with total := b.total + amount, available := b.available + amount }

/-- models.rs `AccountBalance::decrease`. -/
def AccountBalance.decrease (b : AccountBalance) (amount : Rat) :
    Except BalanceError AccountBalance :=
  if amount ≤ 0 then .error (.InvalidAmount "Amount must be positive")
  else if b.available < amount then .error .InsufficientBalance
  else .ok { b with total := b.total - amount, available := b.available - amount }

/-- models.rs `AccountBalance::freeze`. -/
def AccountBalance.freeze (b : AccountBalance) (amount : Rat) :
    Except BalanceError AccountBalance :=
  if amount ≤ 0 then .error (.InvalidAmount "Amount must be positive")
  else if b.available < amount then .error .InsufficientBalance
  else .ok { b with available := b.available - amount, frozen := b.frozen + amount }

/-- models.rs `AccountBalance::unfreeze`. -/
def AccountBalance.unfreeze (b : AccountBalance) (amount : Rat) :
    Except BalanceError AccountBalance :=
  if amount ≤ 0 then .error (.InvalidAmount "Amount must be positive")
  else if b.frozen < amount then .error .InsufficientBalance
  else .ok { b with frozen := b.frozen - amount, available := b.available + amount }

/-- models.rs `Symbol`. -/
structure Symbol where
  id : Int
  name : String
  base : Int
  quote : Int
deriving DecidableEq, Repr

/-- models.rs `get_symbol` over the table built by `init_global_config`:
the single symbol 1 = BTC-USDT, base currency 1 (BTC), quote currency 2 (USDT). -/
def get_symbol (symbol_id : Int) : Option Symbol :=
  if symbol_id = 1 then some { id := 1, name := "BTC-USDT", base := 1, quote := 2 }
  else none

/-- models.rs `Account`. -/
structure Account where
  id : Int
  balances : List (Int × AccountBalance)
deriving DecidableEq, Repr

/-- models.rs `Account::new`. -/
def Account.new (id : Int) : Account :=
  { id := id, balances := [] }

/-- The value read through models.rs `Account::get_balance`
(`entry(currency_id).or_insert_with(AccountBalance::new)`): the stored balance,
or a fresh zero balance when the entry is created. -/
def Account.get_balance_value (a : Account) (currency_id : Int) : AccountBalance :=
  match assocGet a.balances currency_id with
  | some b => b
  | none => AccountBalance.new currency_id

/-- Write-back of a mutation performed through `Account::get_balance`'s `&mut`
reference (inserting the entry if it was just created). -/
def Account.set_balance (a : Account) (currency_id : Int) (b : AccountBalance) : Account :=
  { a with balances := assocInsert a.balances currency_id b }

/-- models.rs `BalanceManager`. -/
structure BalanceManager where
  accounts : List (Int × Account)
deriving DecidableEq, Repr

/-- models.rs `BalanceManager::new`. -/
def BalanceManager.new : BalanceManager :=
  { accounts := [] }

/-- The account read through `self.accounts.entry(id).or_insert_with(Account::new)`. -/
def BalanceManager.get_account_or_new (bm : BalanceManager) (account_id : Int) : Account :=
  match assocGet bm.accounts account_id with
  | some a => a
  | none => Account.new account_id

/-- Write-back of a mutation performed through the `entry(...).or_insert_with`
`&mut` reference. -/
def BalanceManager.set_account (bm : BalanceManager) (account_id : Int) (a : Account) :
    BalanceManager :=
  { bm with accounts := assocInsert bm.accounts account_id a }

/-- schema `Balance` as rendered by models.rs (the source stringifies the
decimals; the numeric values are kept here). `value` carries `total`. -/
structure BalanceView where
  currency : Int
  value : Rat
  frozen : Rat
  available : Rat
deriving DecidableEq, Repr

def AccountBalance.toView (b : AccountBalance) (currency_id : Int) : BalanceView :=
  { currency := currency_id, value := b.total, frozen := b.frozen, available := b.available }

/-- schema `GetAccountResponse`. -/
structure GetAccountResponse where
  code : Int
  message : Option String
  data : List (Int × BalanceView)
deriving DecidableEq, Repr

/-- schema `IncreaseResponse` / `DecreaseResponse` (identical shapes). -/
structure BalanceOpResponse where
  code : Int
  message : Option String
  data : Option BalanceView
deriving DecidableEq, Repr

/-- schema `PlaceOrderResponse`. -/
structure PlaceOrderResponse where
  code : Int
  message : Option String
  id : Int
deriving DecidableEq, Repr

/-- schema `CancelOrderResponse` (`cancelled_quantity`/`refund_amount` are
decimal strings in the source, kept as values here). -/
structure CancelOrderResponse where
  code : Int
  message : Option String
  order_id : Int
  cancelled_quantity : Option Rat
  refund_amount : Option Rat
deriving DecidableEq, Repr

/-- models.rs `BalanceManager::handle_get_account`. -/
def BalanceManager.handle_get_account (bm : BalanceManager) (account_id : Int)
    (currency_id : Option Int) : GetAccountResponse :=
  match assocGet bm.accounts account_id with
  | none => { code := 404, message := some "Account not found", data := [] }
  | some account =>
    let data :=
      match currency_id with
      | some cid =>
        match assocGet account.balances cid with
        | some b => [(cid, b.toView cid)]
        | none => []
      | none => account.balances.map (fun e => (e.1, e.2.toView e.1))
    { code := 0, message := some "Success", data := data }

/-- models.rs `BalanceManager::handle_increase`. Note that the account entry
and the zero balance entry are created by `or_insert_with` before the guarded
`increase`, so they persist even when the operation fails. -/
def BalanceManager.handle_increase (bm : BalanceManager) (account_id currency_id : Int)
    (amount_parsed : Option Rat) : BalanceOpResponse × BalanceManager :=
  match amount_parsed with
  | none => ({ code := 400, message := some "Invalid amount format", data := none }, bm)
  | some amount =>
    let account := bm.get_account_or_new account_id
    let balance := account.get_balance_value currency_id
    match balance.increase amount with
    | .ok b' =>
      ({ code := 0, message := some "Success", data := some (b'.toView currency_id) },
        bm.set_account account_id (account.set_balance currency_id b'))
    | .error e =>
      ({ code := 400, message := some e.toMessage, data := none },
        bm.set_account account_id (account.set_balance currency_id balance))

/-- models.rs `BalanceManager::handle_decrease`, with the same lazily-created
entries as `handle_increase`. -/
def BalanceManager.handle_decrease (bm : BalanceManager) (account_id currency_id : Int)
    (amount_parsed : Option Rat) : BalanceOpResponse × BalanceManager :=
  match amount_parsed with
  | none => ({ code := 400, message := some "Invalid amount format", data := none }, bm)
  | some amount =>
    let account := bm.get_account_or_new account_id
    let balance := account.get_balance_value currency_id
    match balance.decrease amount with
    | .ok b' =>
      ({ code := 0, message := some "Success", data := some (b'.toView currency_id) },
        bm.set_account account_id (account.set_balance currency_id b'))
    | .error e =>
      ({ code := 400, message := some e.toMessage, data := none },
        bm.set_account account_id (account.set_balance currency_id balance))

/-- models.rs `BalanceManager::handle_freeze`; the lazily-created account and
balance entries persist even when the freeze fails, so the updated manager is
returned alongside the result. -/
def BalanceManager.handle_freeze (bm : BalanceManager) (account_id currency_id : Int)
    (amount_parsed : Option Rat) : Except BalanceError Unit × BalanceManager :=
  match amount_parsed with
  | none => (.error (.InvalidAmount "Invalid amount format"), bm)
  | some amount =>
    let account := bm.get_account_or_new account_id
    let balance := account.get_balance_value currency_id
    match balance.freeze amount with
    | .ok b' => (.ok (), bm.set_account account_id (account.set_balance currency_id b'))
    | .error e =>
      (.error e, bm.set_account account_id (account.set_balance currency_id balance))

/-- models.rs `BalanceManager::handle_place_order`: compute the collateral
(quote, `price * quantity` for `side == 0`; base, `quantity` otherwise) and
freeze it. The source round-trips `freeze_amount` through `to_string`, an
exact identity on `Decimal`. -/
def BalanceManager.handle_place_order (bm : BalanceManager) (account_id symbol_id : Int)
    (side : Int) (price_parsed quantity_parsed : Option Rat) :
    Except BalanceError (Int × Rat) × BalanceManager :=
  match get_symbol symbol_id with
  | none => (.error .CurrencyNotFound, bm)
  | some symbol =>
    if side = 0 then
      match price_parsed with
      | none => (.error (.InvalidAmount "Invalid price format"), bm)
      | some price =>
        match quantity_parsed with
        | none => (.error (.InvalidAmount "Invalid quantity format"), bm)
        | some quantity =>
          let freeze_amount := price * quantity
          let r := bm.handle_freeze account_id symbol.quote (some freeze_amount)
          match r.1 with
          | .ok _ => (.ok (symbol.quote, freeze_amount), r.2)
          | .error e => (.error e, r.2)
    else
      match quantity_parsed with
      | none => (.error (.InvalidAmount "Invalid quantity format"), bm)
      | some quantity =>
        let r := bm.handle_freeze account_id symbol.base (some quantity)
        match r.1 with
        | .ok _ => (.ok (symbol.base, quantity), r.2)
        | .error e => (.error e, r.2)

/-- Outcome of the `SequencerMessage::PlaceOrder` arm of processor.rs
`SequencerProcessor::process_sequencer_message`: either the order is forwarded
to a matcher shard, or a 400 reply is sent directly and nothing is forwarded. -/
structure SeqPlaceOutcome where
  reply : Option PlaceOrderResponse
  forwarded : Bool
  bm : BalanceManager
deriving DecidableEq, Repr

/-- processor.rs `SequencerProcessor::process_sequencer_message`, the
`PlaceOrder` arm: freeze via `handle_place_order`; on success forward the
message to the matcher, on failure reply `400` and do not forward. -/
def SequencerProcessor.process_place_order (bm : BalanceManager) (symbol_id account_id : Int)
    (side : Int) (price_parsed quantity_parsed : Option Rat) : SeqPlaceOutcome :=
  let r := bm.handle_place_order account_id symbol_id side price_parsed quantity_parsed
  match r.1 with
  | .ok _ => { reply := none, forwarded := true, bm := r.2 }
  | .error e =>
    { reply := some { code := 400, message := some ("Order failed: " ++ e.toMessage), id := 0 }
      forwarded := false, bm := r.2 }

/-- Outcome of processor.rs `MatchProcessor::handle_cancel_order`: the reply,
the `UnfreezeOrder` messages emitted to sequencer shards, and the engine state. -/
structure CancelOutcome where
  response : CancelOrderResponse
  unfreeze_msgs : List Order
  engine : MatchingEngine
deriving DecidableEq, Repr

/-- processor.rs `MatchProcessor::handle_cancel_order`. The source calls
`self.matching_engine.cancel_order` first and checks the owning account only
afterwards, on the already-cancelled order. -/
def MatchProcessor.handle_cancel_order (engine : MatchingEngine) (symbol_id account_id : Int)
    (order_id : Nat) : CancelOutcome :=
  match engine.cancel_order symbol_id order_id with
  | (some cancelled_order, engine') =>
    if cancelled_order.account_id ≠ account_id then
      { response :=
          { code := 403, message := some "Order does not belong to this account"
            order_id := (order_id : Int), cancelled_quantity := none, refund_amount := none }
        unfreeze_msgs := [], engine := engine' }
    else
      { response :=
          { code := 0, message := some "Order cancelled successfully"
            order_id := (order_id : Int)
            cancelled_quantity := some cancelled_order.remaining_quantity
            refund_amount := none }
        unfreeze_msgs := [cancelled_order], engine := engine' }
  | (none, engine') =>
    { response :=
        { code := 404, message := some "Order not found"
          order_id := (order_id : Int), cancelled_quantity := none, refund_amount := none }
      unfreeze_msgs := [], engine := engine' }

/-- processor.rs `MatchProcessor::execute_trades` routing: each trade is sent as
one `ExecuteTrade` message, only to the shard
`(trade.buy_account_id % num_shards).abs()`; no message is addressed to the
sell account's shard. -/
def MatchProcessor.execute_trades_routing (num_shards : Nat) (trades : List Trade) :
    List (Nat × Trade) :=
  trades.map (fun t => ((Int.tmod t.buy_account_id (num_shards : Int)).natAbs, t))

/-- processor.rs `SequencerProcessor::execute_single_trade`. The buy side and
the sell side are each applied only when the hard-coded shard check
`(account_id % 10).abs() == self.id` passes; the balance fields are written
directly, without the guarded `AccountBalance` methods. -/
def SequencerProcessor.execute_single_trade (selfId : Nat) (bm : BalanceManager) (t : Trade) :
    Except BalanceError BalanceManager :=
  match get_symbol t.symbol_id with
  | none => .error .CurrencyNotFound
  | some symbol =>
    let quote_amount := t.price * t.quantity
    let bm1 :=
      if (Int.tmod t.buy_account_id 10).natAbs = selfId then
        let acc := bm.get_account_or_new t.buy_account_id
        let bq := acc.get_balance_value symbol.quote
        let acc := acc.set_balance symbol.quote
          { bq with frozen := bq.frozen - quote_amount, total := bq.total - quote_amount }
        let bb := acc.get_balance_value symbol.base
        let acc := acc.set_balance symbol.base
          { bb with total := bb.total + t.quantity, available := bb.available + t.quantity }
        bm.set_account t.buy_account_id acc
      else bm
    let bm2 :=
      if (Int.tmod t.sell_account_id 10).natAbs = selfId then
        let acc := bm1.get_account_or_new t.sell_account_id
        let bb := acc.get_balance_value symbol.base
        let acc := acc.set_balance symbol.base
          { bb with frozen := bb.frozen - t.quantity, total := bb.total - t.quantity }
        let bq := acc.get_balance_value symbol.quote
        let acc := acc.set_balance symbol.quote
          { bq with total := bq.total + quote_amount, available := bq.available + quote_amount }
        bm1.set_account t.sell_account_id acc
      else bm1
    .ok bm2

/-- processor.rs `SequencerProcessor::unfreeze_order_balance`: unfreeze
`price * remaining` of quote for a Bid, `remaining` of base for an Ask, only on
the shard `(account_id % 10).abs() == self.id`; when the frozen balance is
short, clamp by releasing all of it. -/
def SequencerProcessor.unfreeze_order_balance (selfId : Nat) (bm : BalanceManager)
    (order : Order) : Except BalanceError BalanceManager :=
  match get_symbol order.symbol_id with
  | none => .error .CurrencyNotFound
  | some symbol =>
    let remaining := order.remaining_quantity
    let cid :=
      match order.side with
      | .Bid => symbol.quote
      | .Ask => symbol.base
    let amount :=
      match order.side with
      | .Bid => order.price * remaining
      | .Ask => remaining
    if (Int.tmod order.account_id 10).natAbs ≠ selfId then .ok bm
    else
      let acc := bm.get_account_or_new order.account_id
      let b := acc.get_balance_value cid
      let b' :=
        if b.frozen < amount then { b with frozen := 0, available := b.available + b.frozen }
        else { b with frozen := b.frozen - amount, available := b.available + amount }
      .ok (bm.set_account order.account_id (acc.set_balance cid b'))

/-! ### Derived notions used to state the claims -/

/-- All resting orders of one side map, in price-then-queue order. -/
def sideOrders (side : List (Rat × PriceLevel)) : List Order :=
  side.foldr (fun e acc => e.2.orders ++ acc) []

/-- The (id, price) pairs of the resting orders of one side map. -/
def idPrices (side : List (Rat × PriceLevel)) : List (Nat × Rat) :=
  (sideOrders side).map (fun o => (o.id, o.price))

/-- The price keys of one side map, in iteration order. -/
def sideKeys (side : List (Rat × PriceLevel)) : List Rat :=
  side.map Prod.fst

/-- Well-formedness of one side map, as maintained by the source's `BTreeMap`
and level bookkeeping: keys strictly ascending, and every resting order's
`price` field equals its level's key. -/
def sideWF (side : List (Rat × PriceLevel)) : Prop :=
  (sideKeys side).Pairwise (· < ·) ∧ ∀ e ∈ side, ∀ o ∈ e.2.orders, o.price = e.1

/-- Well-formedness of both sides of an order book. -/
def OrderBook.wf (ob : OrderBook) : Prop :=
  sideWF ob.bids ∧ sideWF ob.asks

/-- The §3 balance identity of one balance. -/
def AccountBalance.identityOK (b : AccountBalance) : Prop :=
  b.total = b.frozen + b.available

/-- The §3 nonnegativity of one balance. -/
def AccountBalance.nonnegOK (b : AccountBalance) : Prop :=
  0 ≤ b.frozen ∧ 0 ≤ b.available

/-- `total = frozen + available` for every stored (account, currency) balance. -/
def BalanceManager.invariantIdentity (bm : BalanceManager) : Prop :=
  ∀ a ∈ bm.accounts, ∀ e ∈ a.2.balances, e.2.identityOK

/-- Identity plus nonnegativity for every stored (account, currency) balance. -/
def BalanceManager.invariantFull (bm : BalanceManager) : Prop :=
  ∀ a ∈ bm.accounts, ∀ e ∈ a.2.balances, e.2.identityOK ∧ e.2.nonnegOK

/-- The (total, frozen, available) triple of one (account, currency), reading
absent entries as zero (exactly what a lazily-created entry holds). -/
def BalanceManager.tripleView (bm : BalanceManager) (account_id currency_id : Int) :
    Rat × Rat × Rat :=
  let b := (bm.get_account_or_new account_id).get_balance_value currency_id
  (b.total, b.frozen, b.available)

/-- One balance-mutating operation of the sequencer, as listed by the spec's
balance state machine: deposit, withdrawal, place-order freeze, cancel
unfreeze, trade settlement. -/
inductive BalanceOp where
  | increase (account_id currency_id : Int) (amount : Option Rat)
  | decrease (account_id currency_id : Int) (amount : Option Rat)
  | placeOrder (account_id symbol_id side : Int) (price quantity : Option Rat)
  | unfreezeOrder (selfId : Nat) (order : Order)
  | settleTrade (selfId : Nat) (t : Trade)

/-- Apply one operation through the source's handler, keeping the state the
handler leaves behind (the processor only logs handler errors). -/
def applyOp (bm : BalanceManager) : BalanceOp → BalanceManager
  | .increase a c amt => (bm.handle_increase a c amt).2
  | .decrease a c amt => (bm.handle_decrease a c amt).2
  | .placeOrder a s sd p q => (bm.handle_place_order a s sd p q).2
  | .unfreezeOrder selfId o =>
    match SequencerProcessor.unfreeze_order_balance selfId bm o with
    | .ok bm' => bm'
    | .error _ => bm
  | .settleTrade selfId t =>
    match SequencerProcessor.execute_single_trade selfId bm t with
    | .ok bm' => bm'
    | .error _ => bm

/-- Apply a sequence of operations in order. -/
def applyOps (bm : BalanceManager) (ops : List BalanceOp) : BalanceManager :=
  ops.foldl applyOp bm

/-- Sanity of one operation: cancel-unfreeze is fed an order with a
nonnegative price and `filled ≤ quantity` (all orders the matcher ever emits
satisfy this), and trade settlement is excluded. -/
def BalanceOp.guardOK : BalanceOp → Prop
  | .increase _ _ _ => True
  | .decrease _ _ _ => True
  | .placeOrder _ _ _ _ _ => True
  | .unfreezeOrder _ o => 0 ≤ o.price ∧ o.filled_quantity ≤ o.quantity
  | .settleTrade _ _ => False

/-- Deliver one `ExecuteTrade` message to shard `dest` of the sequencer-shard
list (shard `i` at index `i`, counting from `i0`); the other shards receive
nothing. -/
def deliverTrade : List BalanceManager → Nat → Nat → Trade → List BalanceManager
  | [], _, _, _ => []
  | bm :: rest, i, dest, t =>
    (if i = dest then
      match SequencerProcessor.execute_single_trade i bm t with
      | .ok bm' => bm'
      | .error _ => bm
    else bm) :: deliverTrade rest (i + 1) dest t

/-- The whole settlement pipeline for one trade: `execute_trades` routes the
single `ExecuteTrade` message to shard `(buy_account_id % num_shards).abs()`,
and that shard runs `execute_single_trade`. -/
def applyTradePipeline (shards : List BalanceManager) (t : Trade) : List BalanceManager :=
  deliverTrade shards 0 ((Int.tmod t.buy_account_id (shards.length : Int)).natAbs) t

/-- Sum of `total` over all accounts of one shard for one currency. -/
def BalanceManager.totalOfCurrency (bm : BalanceManager) (cid : Int) : Rat :=
  (bm.accounts.map (fun a =>
    match assocGet a.2.balances cid with
    | some b => b.total
    | none => 0)).sum

/-- Sum of `total` over all accounts of all shards for one currency. -/
def sumTotal (shards : List BalanceManager) (cid : Int) : Rat :=
  (shards.map (fun bm => bm.totalOfCurrency cid)).sum

/-! ### Association-list lemmas -/

theorem assocGet_insert_self {κ α : Type} [DecidableEq κ] (l : List (κ × α)) (k : κ) (v : α) :
    assocGet (assocInsert l k v) k = some v := by
  induction l with
  | nil => simp [assocInsert, assocGet]
  | cons hd tl ih =>
    by_cases h : hd.1 = k
    · simp [assocInsert, assocGet, h]
    · simpa [assocInsert, assocGet, h] using ih

theorem assocGet_insert_of_ne {κ α : Type} [DecidableEq κ] (l : List (κ × α)) (k k' : κ) (v : α)
    (h : k ≠ k') : assocGet (assocInsert l k v) k' = assocGet l k' := by
  induction l with
  | nil => simp [assocInsert, assocGet, h]
  | cons hd tl ih =>
    by_cases hh : hd.1 = k
    · simp [assocInsert, assocGet, hh, h]
    · simp [assocInsert, assocGet, hh, ih]

theorem mem_assocInsert {κ α : Type} [DecidableEq κ] (l : List (κ × α)) (k : κ) (v : α)
    (p : κ × α) (hp : p ∈ assocInsert l k v) : p = (k, v) ∨ p ∈ l := by
  induction l with
  | nil => simpa [assocInsert] using hp
  | cons hd tl ih =>
    by_cases hh : hd.1 = k
    · simp only [assocInsert, if_pos hh, List.mem_cons] at hp
      rcases hp with h | h
      · exact Or.inl h
      · exact Or.inr (List.mem_cons_of_mem _ h)
    · simp only [assocInsert, if_neg hh, List.mem_cons] at hp
      rcases hp with h | h
      · exact Or.inr (h ▸ List.mem_cons_self _ _)
      · rcases ih h with h' | h'
        · exact Or.inl h'
        · exact Or.inr (List.mem_cons_of_mem _ h')

theorem get_account_or_new_set (bm : BalanceManager) (k : Int) (a : Account) :
    (bm.set_account k a).get_account_or_new k = a := by
  simp [BalanceManager.set_account, BalanceManager.get_account_or_new, assocGet_insert_self]

theorem get_balance_value_set (a : Account) (c : Int) (b : AccountBalance) :
    (a.set_balance c b).get_balance_value c = b := by
  simp [Account.set_balance, Account.get_balance_value, assocGet_insert_self]

/-! ### C1: the limit-order sweep stops after one maker per price level -/

/-- A resting Ask maker: 1 unit at price 100. -/
def makerC1a : Order :=
  { id := 1, request_id := 0, symbol_id := 1, account_id := 10, order_type := .Limit
    side := .Ask, price := 100, quantity := 1, filled_quantity := 0
    status := .Pending, created_at := 0 }

/-- A second resting Ask maker behind the first: 1 unit at price 100. -/
def makerC1b : Order :=
  { makerC1a with id := 2, account_id := 11 }

/-- Book with a single ask level at 100 holding the two makers in FIFO order. -/
def bookC1 : OrderBook :=
  { symbol_id := 1, bids := []
    asks := [(100, { price := 100, total_quantity := 2, orders := [makerC1a, makerC1b] })]
    orders := [(1, makerC1a), (2, makerC1b)] }

/-- Incoming limit Bid taker: 2 units at price 100, crossing both makers. -/
def takerC1 : Order :=
  { id := 3, request_id := 0, symbol_id := 1, account_id := 12, order_type := .Limit
    side := .Bid, price := 100, quantity := 2, filled_quantity := 0
    status := .Pending, created_at := 0 }

/-- C1: a limit Bid for 2 units at price 100 against an ask level holding two
1-unit makers at 100 produces a single 1-unit trade; the taker is left with
remaining quantity 1 (and even rests on the bid side) while the second maker
still rests unfilled at the eligible price 100 — `match_limit_order` calls
`match_at_price` once per eligible level, so the sweep stops with an unfilled
maker at an eligible price, contradicting the claim. -/
theorem C1_limit_sweep_stops_early :
    ((bookC1.add_order takerC1 5).1.map Trade.quantity = [1]) ∧
    ((assocGet (bookC1.add_order takerC1 5).2.orders 3).map Order.remaining_quantity
      = some 1) ∧
    ((assocGet (bookC1.add_order takerC1 5).2.asks 100).map
        (fun lvl => lvl.orders.map Order.remaining_quantity) = some [1]) ∧
    ((assocGet (bookC1.add_order takerC1 5).2.bids 100).map
        (fun lvl => lvl.orders.map Order.id) = some [3]) := by
  with_unfolding_all decide

/-! ### C2: settlement is routed only to the buyer's shard -/

/-- Buyer shard state: account 1 holds 10 USDT (currency 2), all frozen. -/
def bmBuyerC2 : BalanceManager :=
  { accounts := [(1,
      { id := 1,
        balances := [(2, { currency_id := 2, total := 10, frozen := 10, available := 0 })] })] }

/-- Seller shard state: account 2 holds 2 BTC (currency 1), all frozen. -/
def bmSellerC2 : BalanceManager :=
  { accounts := [(2,
      { id := 2,
        balances := [(1, { currency_id := 1, total := 2, frozen := 2, available := 0 })] })] }

/-- The ten sequencer shards (main.rs `SHARD_COUNT = 10`): the buyer's account 1
lives on shard 1, the seller's account 2 on shard 2. -/
def shardsC2 : List BalanceManager :=
  [BalanceManager.new, bmBuyerC2, bmSellerC2, BalanceManager.new, BalanceManager.new,
    BalanceManager.new, BalanceManager.new, BalanceManager.new, BalanceManager.new,
    BalanceManager.new]

/-- A trade between buyer account 1 and seller account 2: 2 BTC at 5 USDT. -/
def tradeC2 : Trade :=
  { id := 0, symbol_id := 1, buy_order_id := 1, sell_order_id := 2
    buy_account_id := 1, sell_account_id := 2, price := 5, quantity := 2, created_at := 0 }

/-- C2: `execute_trades` emits exactly one settlement message, addressed to the
buyer's shard 1; after the pipeline runs, the seller's shard is untouched, so
only the buyer's side of the trade is settled and the per-currency sums of
`total` across all shards change (base 2 → 4, quote 10 → 0), contradicting the
claim's per-account settlement and conservation. -/
theorem C2_settlement_only_buy_shard :
    (MatchProcessor.execute_trades_routing 10 [tradeC2] = [(1, tradeC2)]) ∧
    (sumTotal shardsC2 1 = 2 ∧ sumTotal (applyTradePipeline shardsC2 tradeC2) 1 = 4) ∧
    (sumTotal shardsC2 2 = 10 ∧ sumTotal (applyTradePipeline shardsC2 tradeC2) 2 = 0) ∧
    ((applyTradePipeline shardsC2 tradeC2).get? 2 = some bmSellerC2) := by
  with_unfolding_all decide

/-! ### C3: forbidden cancel mutates the book before the ownership check -/

/-- A resting Bid of account 1: order 7, 1 unit at price 10. -/
def orderC3 : Order :=
  { id := 7, request_id := 0, symbol_id := 1, account_id := 1, order_type := .Limit
    side := .Bid, price := 10, quantity := 1, filled_quantity := 0
    status := .Pending, created_at := 0 }

/-- Matching engine holding only order 7 on symbol 1's bid side. -/
def engineC3 : MatchingEngine :=
  { order_books := [(1,
      { symbol_id := 1
        bids := [(10, { price := 10, total_quantity := 1, orders := [orderC3] })]
        asks := [], orders := [(7, orderC3)] })]
    next_order_id := 8, trades := [] }

/-- C3: account 2 cancels account 1's order 7. The reply is 403 and no
`UnfreezeOrder` message is emitted, as the claim says — but the matcher state
is NOT unchanged: `handle_cancel_order` runs `cancel_order` before checking
ownership, so order 7 is removed from its price level and marked `Cancelled`. -/
theorem C3_cancel_before_owner_check :
    ((MatchProcessor.handle_cancel_order engineC3 1 2 7).response.code = 403) ∧
    ((MatchProcessor.handle_cancel_order engineC3 1 2 7).unfreeze_msgs = []) ∧
    ((assocGet (MatchProcessor.handle_cancel_order engineC3 1 2 7).engine.order_books 1).map
        OrderBook.bids = some []) ∧
    ((assocGet (MatchProcessor.handle_cancel_order engineC3 1 2 7).engine.order_books 1).map
        (fun ob => (assocGet ob.orders 7).map Order.status)
      = some (some OrderStatus.Cancelled)) := by
  with_unfolding_all decide

/-! ### C10: a failed (but parsed) Decrease still creates the account -/

/-- C10: starting from a state with no record for `account_id`, `GetAccount`
returns 404; a `Decrease` whose amount string parses (to any `a`) fails with
400 on the fresh account, yet the `entry(..).or_insert_with` chain has already
inserted the account with a single all-zero balance for the touched currency,
so a subsequent `GetAccount` returns code 0, with the zero triple as its data
when queried for that currency. -/
theorem C10_failed_decrease_creates_account (bm : BalanceManager)
    (account_id currency_id : Int) (a : Rat)
    (hfresh : assocGet bm.accounts account_id = none) :
    (∀ q, (bm.handle_get_account account_id q).code = 404) ∧
    (bm.handle_decrease account_id currency_id (some a)).1.code = 400 ∧
    (assocGet (bm.handle_decrease account_id currency_id (some a)).2.accounts account_id
      = some ((Account.new account_id).set_balance currency_id
          (AccountBalance.new currency_id))) ∧
    (∀ q, ((bm.handle_decrease account_id currency_id (some a)).2.handle_get_account
        account_id q).code = 0) ∧
    (((bm.handle_decrease account_id currency_id (some a)).2.handle_get_account account_id
        (some currency_id)).data
      = [(currency_id,
          { currency := currency_id, value := 0, frozen := 0, available := 0 })]) := by
  have hacc : bm.get_account_or_new account_id = Account.new account_id := by
    simp [BalanceManager.get_account_or_new, hfresh]
  have hbal : (Account.new account_id).get_balance_value currency_id
      = AccountBalance.new currency_id := by
    simp [Account.get_balance_value, Account.new, assocGet]
  have hdec : (AccountBalance.new currency_id).decrease a
      = .error (if a ≤ 0 then .InvalidAmount "Amount must be positive"
          else .InsufficientBalance) := by
    by_cases ha : a ≤ 0
    · simp [AccountBalance.decrease, ha]
    · have h0 : (AccountBalance.new currency_id).available < a := by
        simpa [AccountBalance.new] using lt_of_not_le ha
      simp [AccountBalance.decrease, ha, h0]
  have hrun : bm.handle_decrease account_id currency_id (some a)
      = ({ code := 400,
           message := some (BalanceError.toMessage (if a ≤ 0
             then .InvalidAmount "Amount must be positive" else .InsufficientBalance)),
           data := none },
         bm.set_account account_id ((Account.new account_id).set_balance currency_id
           (AccountBalance.new currency_id))) := by
    by_cases ha : a ≤ 0 <;>
      simp [BalanceManager.handle_decrease, hacc, hbal, hdec, ha]
  refine ⟨?_, ?_, ?_, ?_, ?_⟩
  · intro q
    simp [BalanceManager.handle_get_account, hfresh]
  · simp [hrun]
  · simp [hrun, BalanceManager.set_account, assocGet_insert_self]
  · intro q
    simp [hrun, BalanceManager.handle_get_account, BalanceManager.set_account,
      assocGet_insert_self]
  · simp [hrun, BalanceManager.handle_get_account, BalanceManager.set_account,
      assocGet_insert_self, Account.set_balance, Account.new, assocInsert, assocGet,
      AccountBalance.new, AccountBalance.toView]

/-- The symbol table entry for symbol 1. -/
def btcUsdt : Symbol :=
  { id := 1, name := "BTC-USDT", base := 1, quote := 2 }

/-- Witness for C10 at the empty manager, account 9, currency 1, amount −1. -/
theorem C10_witness :
    (assocGet BalanceManager.new.accounts 9 = none) ∧
    ((∀ q, (BalanceManager.new.handle_get_account 9 q).code = 404) ∧
    (BalanceManager.new.handle_decrease 9 1 (some (-1))).1.code = 400 ∧
    (assocGet (BalanceManager.new.handle_decrease 9 1 (some (-1))).2.accounts 9
      = some ((Account.new 9).set_balance 1 (AccountBalance.new 1))) ∧
    (∀ q, ((BalanceManager.new.handle_decrease 9 1 (some (-1))).2.handle_get_account
        9 q).code = 0) ∧
    (((BalanceManager.new.handle_decrease 9 1 (some (-1))).2.handle_get_account 9
        (some 1)).data
      = [(1, { currency := 1, value := 0, frozen := 0, available := 0 })])) :=
  ⟨rfl, C10_failed_decrease_creates_account BalanceManager.new 9 1 (-1) rfl⟩

/-! ### C6: insufficient balance at the sequencer rejects without forwarding -/

/-- C6: when the computed collateral (quote `price * quantity` for a Bid,
base `quantity` otherwise) exceeds the account's available balance, the
sequencer's PlaceOrder arm replies 400 "Insufficient balance", forwards
nothing to the matcher (order books live in the matcher and only change on
forwarded messages, so no order is created anywhere), and the account's
(total, frozen, available) triple for the collateral currency is unchanged. -/
theorem C6_insufficient_balance_rejected (bm : BalanceManager)
    (symbol_id account_id side : Int) (price quantity : Rat) (s : Symbol)
    (hsym : get_symbol symbol_id = some s)
    (hlt : (bm.tripleView account_id (if side = 0 then s.quote else s.base)).2.2
      < (if side = 0 then price * quantity else quantity))
    (hnn : 0 ≤ (bm.tripleView account_id (if side = 0 then s.quote else s.base)).2.2) :
    ((SequencerProcessor.process_place_order bm symbol_id account_id side
        (some price) (some quantity)).forwarded = false) ∧
    ((SequencerProcessor.process_place_order bm symbol_id account_id side
        (some price) (some quantity)).reply
      = some { code := 400, message := some "Order failed: Insufficient balance",
               id := 0 }) ∧
    ((SequencerProcessor.process_place_order bm symbol_id account_id side
          (some price) (some quantity)).bm.tripleView account_id
        (if side = 0 then s.quote else s.base)
      = bm.tripleView account_id (if side = 0 then s.quote else s.base)) := by
  have key : ∀ (cid : Int) (c : Rat),
      ((bm.get_account_or_new account_id).get_balance_value cid).available < c →
      0 ≤ ((bm.get_account_or_new account_id).get_balance_value cid).available →
      ((bm.get_account_or_new account_id).get_balance_value cid).freeze c
        = .error .InsufficientBalance := by
    intro cid c h1 h2
    have hc0 : ¬ c ≤ 0 := not_le.mpr (lt_of_le_of_lt h2 h1)
    simp [AccountBalance.freeze, hc0, h1]
  by_cases hside : side = 0
  · subst hside
    simp only [if_pos, BalanceManager.tripleView, reduceIte] at hlt hnn ⊢
    have hfr := key s.quote (price * quantity) hlt hnn
    simp [SequencerProcessor.process_place_order, BalanceManager.handle_place_order,
      hsym, BalanceManager.handle_freeze, hfr, BalanceError.toMessage,
      get_account_or_new_set, get_balance_value_set]
  · simp only [if_neg hside, BalanceManager.tripleView] at hlt hnn ⊢
    have hfr := key s.base quantity hlt hnn
    simp [SequencerProcessor.process_place_order, BalanceManager.handle_place_order,
      hsym, hside, BalanceManager.handle_freeze, hfr, BalanceError.toMessage,
      get_account_or_new_set, get_balance_value_set]

/-- Witness state for C6: account 1 has 5 USDT available, far less than the
Bid collateral 50 * 10 = 500. -/
def bmC6 : BalanceManager :=
  { accounts := [(1,
      { id := 1,
        balances := [(2, { currency_id := 2, total := 5, frozen := 0, available := 5 })] })] }

theorem C6_witness :
    (get_symbol 1 = some btcUsdt) ∧
    ((bmC6.tripleView 1 (if (0:Int) = 0 then btcUsdt.quote else btcUsdt.base)).2.2
      < (if (0:Int) = 0 then (50:Rat) * 10 else 10)) ∧
    (0 ≤ (bmC6.tripleView 1 (if (0:Int) = 0 then btcUsdt.quote else btcUsdt.base)).2.2) ∧
    (((SequencerProcessor.process_place_order bmC6 1 1 0 (some 50) (some 10)).forwarded
        = false) ∧
      ((SequencerProcessor.process_place_order bmC6 1 1 0 (some 50) (some 10)).reply
        = some { code := 400, message := some "Order failed: Insufficient balance",
                 id := 0 }) ∧
      ((SequencerProcessor.process_place_order bmC6 1 1 0 (some 50) (some 10)).bm.tripleView
          1 (if (0:Int) = 0 then btcUsdt.quote else btcUsdt.base)
        = bmC6.tripleView 1 (if (0:Int) = 0 then btcUsdt.quote else btcUsdt.base))) :=
  ⟨rfl, by with_unfolding_all decide, by with_unfolding_all decide,
    C6_insufficient_balance_rejected bmC6 1 1 0 50 10 btcUsdt rfl
      (by with_unfolding_all decide) (by with_unfolding_all decide)⟩

/-! ### C7: place-then-cancel restores the balance triple exactly -/

/-- C7: for a limit order whose freeze succeeds (`0 < collateral ≤ available`,
with `0 ≤ frozen` beforehand) and which is cancelled with no fills
(`filled_quantity = 0`), the cancel-refund unfreeze computes exactly the
frozen collateral (`price * remaining` of quote for a Bid, `remaining` of base
for an Ask, with `remaining = quantity`) and restores the account's
(total, frozen, available) triple for the collateral currency identically. -/
theorem C7_place_cancel_roundtrip (bm : BalanceManager) (symbol_id account_id side : Int)
    (price quantity : Rat) (s : Symbol) (o : Order)
    (hsym : get_symbol symbol_id = some s)
    (hside : side = 0 ∨ side = 1)
    (hcpos : 0 < (if side = 0 then price * quantity else quantity))
    (havail : (if side = 0 then price * quantity else quantity)
      ≤ (bm.tripleView account_id (if side = 0 then s.quote else s.base)).2.2)
    (hfro : 0 ≤ (bm.tripleView account_id (if side = 0 then s.quote else s.base)).2.1)
    (hosym : o.symbol_id = symbol_id) (hoside : o.side = OrderSide.fromI32 side)
    (hoacct : o.account_id = account_id) (hoprice : o.price = price)
    (hoqty : o.quantity = quantity) (hofill : o.filled_quantity = 0) :
    ((bm.handle_place_order account_id symbol_id side (some price) (some quantity)).1
      = .ok ((if side = 0 then s.quote else s.base),
          (if side = 0 then price * quantity else quantity))) ∧
    ((SequencerProcessor.unfreeze_order_balance ((Int.tmod account_id 10).natAbs)
          (bm.handle_place_order account_id symbol_id side (some price) (some quantity)).2
          o).map
        (fun bm2 => bm2.tripleView account_id (if side = 0 then s.quote else s.base))
      = .ok (bm.tripleView account_id (if side = 0 then s.quote else s.base))) := by
  rcases hside with hside | hside
  · subst hside
    simp only [if_pos, BalanceManager.tripleView, reduceIte] at hcpos havail hfro ⊢
    have hc0 : ¬ price * quantity ≤ 0 := not_le.mpr hcpos
    have hnl : ¬ ((bm.get_account_or_new account_id).get_balance_value s.quote).available
        < price * quantity := not_lt.mpr havail
    have hfreeze : ((bm.get_account_or_new account_id).get_balance_value s.quote).freeze
        (price * quantity)
      = .ok { (bm.get_account_or_new account_id).get_balance_value s.quote with
          available := ((bm.get_account_or_new account_id).get_balance_value
            s.quote).available - price * quantity,
          frozen := ((bm.get_account_or_new account_id).get_balance_value
            s.quote).frozen + price * quantity } := by
      simp [AccountBalance.freeze, hc0, hnl]
    have hplace : bm.handle_place_order account_id symbol_id 0 (some price) (some quantity)
        = (.ok (s.quote, price * quantity),
           bm.set_account account_id ((bm.get_account_or_new account_id).set_balance s.quote
             { (bm.get_account_or_new account_id).get_balance_value s.quote with
               available := ((bm.get_account_or_new account_id).get_balance_value
                 s.quote).available - price * quantity,
               frozen := ((bm.get_account_or_new account_id).get_balance_value
                 s.quote).frozen + price * quantity })) := by
      simp [BalanceManager.handle_place_order, hsym, BalanceManager.handle_freeze, hfreeze]
    have hclamp : ¬ (((bm.get_account_or_new account_id).get_balance_value s.quote).frozen
        + price * quantity < price * quantity) :=
      not_lt.mpr (le_add_of_nonneg_left hfro)
    refine ⟨by simp [hplace], ?_⟩
    simp [hplace, SequencerProcessor.unfreeze_order_balance, hosym, hsym, hoside,
      OrderSide.fromI32, hoacct, hoprice, hoqty, hofill, Order.remaining_quantity,
      get_account_or_new_set, get_balance_value_set, hclamp, BalanceManager.tripleView,
      Except.map]
  · subst hside
    simp only [BalanceManager.tripleView, reduceIte] at hcpos havail hfro ⊢
    have hc0 : ¬ quantity ≤ 0 := not_le.mpr hcpos
    have hnl : ¬ ((bm.get_account_or_new account_id).get_balance_value s.base).available
        < quantity := not_lt.mpr havail
    have hfreeze : ((bm.get_account_or_new account_id).get_balance_value s.base).freeze
        quantity
      = .ok { (bm.get_account_or_new account_id).get_balance_value s.base with
          available := ((bm.get_account_or_new account_id).get_balance_value
            s.base).available - quantity,
          frozen := ((bm.get_account_or_new account_id).get_balance_value
            s.base).frozen + quantity } := by
      simp [AccountBalance.freeze, hc0, hnl]
    have hplace : bm.handle_place_order account_id symbol_id 1 (some price) (some quantity)
        = (.ok (s.base, quantity),
           bm.set_account account_id ((bm.get_account_or_new account_id).set_balance s.base
             { (bm.get_account_or_new account_id).get_balance_value s.base with
               available := ((bm.get_account_or_new account_id).get_balance_value
                 s.base).available - quantity,
               frozen := ((bm.get_account_or_new account_id).get_balance_value
                 s.base).frozen + quantity })) := by
      simp [BalanceManager.handle_place_order, hsym, BalanceManager.handle_freeze, hfreeze]
    have hclamp : ¬ (((bm.get_account_or_new account_id).get_balance_value s.base).frozen
        + quantity < quantity) :=
      not_lt.mpr (le_add_of_nonneg_left hfro)
    refine ⟨by simp [hplace], ?_⟩
    simp [hplace, SequencerProcessor.unfreeze_order_balance, hosym, hsym, hoside,
      OrderSide.fromI32, hoacct, hoprice, hoqty, hofill, Order.remaining_quantity,
      get_account_or_new_set, get_balance_value_set, hclamp, BalanceManager.tripleView,
      Except.map]

/-- Witness state for C7: account 3 has 100 USDT available and nothing frozen. -/
def bmC7 : BalanceManager :=
  { accounts := [(3,
      { id := 3,
        balances := [(2,
          { currency_id := 2, total := 100, frozen := 0, available := 100 })] })] }

/-- The C7 witness's unfilled resting order: account 3's limit Bid, 4 units at 5. -/
def orderC7 : Order :=
  { id := 21, request_id := 0, symbol_id := 1, account_id := 3, order_type := .Limit,
    side := .Bid, price := 5, quantity := 4, filled_quantity := 0,
    status := .Pending, created_at := 0 }

theorem C7_witness :
    (get_symbol 1 = some btcUsdt) ∧
    ((0:Int) = 0 ∨ (0:Int) = 1) ∧
    (0 < (if (0:Int) = 0 then (5:Rat) * 4 else 4)) ∧
    ((if (0:Int) = 0 then (5:Rat) * 4 else 4)
      ≤ (bmC7.tripleView 3 (if (0:Int) = 0 then btcUsdt.quote else btcUsdt.base)).2.2) ∧
    (0 ≤ (bmC7.tripleView 3 (if (0:Int) = 0 then btcUsdt.quote else btcUsdt.base)).2.1) ∧
    (((bmC7.handle_place_order 3 1 0 (some 5) (some 4)).1
      = .ok ((if (0:Int) = 0 then btcUsdt.quote else btcUsdt.base),
          (if (0:Int) = 0 then (5:Rat) * 4 else 4))) ∧
    ((SequencerProcessor.unfreeze_order_balance ((Int.tmod 3 10).natAbs)
          (bmC7.handle_place_order 3 1 0 (some 5) (some 4)).2 orderC7).map
        (fun bm2 => bm2.tripleView 3 (if (0:Int) = 0 then btcUsdt.quote else btcUsdt.base))
      = .ok (bmC7.tripleView 3 (if (0:Int) = 0 then btcUsdt.quote else btcUsdt.base)))) :=
  ⟨rfl, Or.inl rfl, by with_unfolding_all decide, by with_unfolding_all decide,
    by with_unfolding_all decide,
    C7_place_cancel_roundtrip bmC7 1 3 0 5 4 btcUsdt orderC7 rfl (Or.inl rfl)
      (by with_unfolding_all decide) (by with_unfolding_all decide)
      (by with_unfolding_all decide) rfl rfl rfl rfl rfl rfl⟩

/-! ### Shape lemmas: matching changes only the taker's `filled_quantity` -/

theorem match_at_price_taker_shape (ob : OrderBook) (taker : Order) (p : Rat) (now : Nat) :
    ∃ f, (ob.match_at_price taker p now).2.1 = { taker with filled_quantity := f } := by
  unfold OrderBook.match_at_price
  rcases h : assocGet (ob.oppSide taker.side) p with _ | lvl
  · exact ⟨taker.filled_quantity, by simp [h]⟩
  · rcases horders : lvl.orders with _ | ⟨maker, rest⟩
    · exact ⟨taker.filled_quantity, by simp [h, horders]⟩
    · exact ⟨taker.filled_quantity
        + min taker.remaining_quantity maker.remaining_quantity, by simp [h, horders]⟩

theorem match_prices_taker_shape (ps : List Rat) (ob : OrderBook) (taker : Order) (now : Nat) :
    ∃ f, (ob.match_prices taker now ps).2.1 = { taker with filled_quantity := f } := by
  induction ps generalizing ob taker now with
  | nil => exact ⟨taker.filled_quantity, by simp [OrderBook.match_prices]⟩
  | cons p ps ih =>
    by_cases hr : taker.remaining_quantity ≤ 0
    · exact ⟨taker.filled_quantity, by simp [OrderBook.match_prices, hr]⟩
    · obtain ⟨f1, hf1⟩ := match_at_price_taker_shape ob taker p now
      rcases hm : ob.match_at_price taker p now with ⟨ot, taker1, ob1⟩
      rw [hm] at hf1
      simp only at hf1
      subst hf1
      obtain ⟨f2, hf2⟩ := ih ob1 { taker with filled_quantity := f1 } (now + 1)
      rcases ot with _ | t
      · exact ⟨f2, by simp [OrderBook.match_prices, hr, hm, hf2]⟩
      · exact ⟨f2, by simp [OrderBook.match_prices, hr, hm, hf2]⟩

theorem match_market_go_taker_shape (fuel : Nat) (ob : OrderBook) (taker : Order) (now : Nat) :
    ∃ f, (ob.match_market_go taker now fuel).2.1 = { taker with filled_quantity := f } := by
  induction fuel generalizing ob taker now with
  | zero => exact ⟨taker.filled_quantity, by simp [OrderBook.match_market_go]⟩
  | succ fuel ih =>
    by_cases hr : 0 < taker.remaining_quantity
    · cases hside : taker.side with
      | Bid =>
        rcases hb : (ob.asks.map Prod.fst).head? with _ | best
        · refine ⟨taker.filled_quantity, ?_⟩
          simp only [OrderBook.match_market_go, hside, hb, if_pos hr]
          rw [← hside]
        · obtain ⟨f1, hf1⟩ := match_at_price_taker_shape ob taker best now
          rcases hm : ob.match_at_price taker best now with ⟨ot, taker1, ob1⟩
          rw [hm] at hf1
          simp only at hf1
          subst hf1
          rcases ot with _ | t
          · refine ⟨f1, ?_⟩
            simp only [OrderBook.match_market_go, hside, hb, if_pos hr, hm]
          · obtain ⟨f2, hf2⟩ := ih ob1 { taker with filled_quantity := f1 } (now + 1)
            refine ⟨f2, ?_⟩
            simp only [OrderBook.match_market_go, hside, hb, if_pos hr, hm]
            rw [← hside]
            exact hf2
      | Ask =>
        rcases hb : (ob.bids.map Prod.fst).getLast? with _ | best
        · refine ⟨taker.filled_quantity, ?_⟩
          simp only [OrderBook.match_market_go, hside, hb, if_pos hr]
          rw [← hside]
        · obtain ⟨f1, hf1⟩ := match_at_price_taker_shape ob taker best now
          rcases hm : ob.match_at_price taker best now with ⟨ot, taker1, ob1⟩
          rw [hm] at hf1
          simp only at hf1
          subst hf1
          rcases ot with _ | t
          · refine ⟨f1, ?_⟩
            simp only [OrderBook.match_market_go, hside, hb, if_pos hr, hm]
          · obtain ⟨f2, hf2⟩ := ih ob1 { taker with filled_quantity := f1 } (now + 1)
            refine ⟨f2, ?_⟩
            simp only [OrderBook.match_market_go, hside, hb, if_pos hr, hm]
            rw [← hside]
            exact hf2
    · exact ⟨taker.filled_quantity, by simp [OrderBook.match_market_go, hr]⟩

/-- The final-status assignment of `add_order` only rewrites `status`. -/
theorem add_order_status_shape (o1 : Order) :
    ∃ st, (if 0 < o1.filled_quantity then
        if o1.is_filled then { o1 with status := OrderStatus.Filled }
        else { o1 with status := OrderStatus.PartialFill }
      else o1)
      = { o1 with status := st } := by
  by_cases h1 : 0 < o1.filled_quantity
  · by_cases h2 : o1.is_filled
    · exact ⟨.Filled, by simp [h1, h2]⟩
    · exact ⟨.PartialFill, by simp [h1, h2]⟩
  · exact ⟨o1.status, by simp [h1]⟩

/-- `add_order_to_book` touches only the side maps, never the order index. -/
theorem orders_add_order_to_book (ob : OrderBook) (o : Order) :
    (ob.add_order_to_book o).orders = ob.orders := by
  cases h : o.side <;> simp [OrderBook.add_order_to_book, h]

/-- The order stored in the index for the incoming order after `add_order`:
the original order with only `filled_quantity` and `status` updated. -/
theorem add_order_index_entry (ob : OrderBook) (o : Order) (now : Nat) :
    ∃ f st, assocGet (ob.add_order o now).2.orders o.id
      = some { o with filled_quantity := f, status := st } := by
  have hmain : ∃ f, (if o.order_type = OrderType.Market then ob.match_market_order o now
      else ob.match_limit_order o now).2.1 = { o with filled_quantity := f } := by
    by_cases hm : o.order_type = .Market
    · simpa [hm, OrderBook.match_market_order] using
        match_market_go_taker_shape (ob.order_count + 2) ob o now
    · simp only [hm, reduceIte]
      unfold OrderBook.match_limit_order
      cases hside : o.side with
      | Bid =>
        obtain ⟨f, hf⟩ := match_prices_taker_shape
          ((ob.asks.map Prod.fst).filter (fun p => decide (p ≤ o.price))) ob o now
        rw [hside] at hf
        exact ⟨f, hf⟩
      | Ask =>
        obtain ⟨f, hf⟩ := match_prices_taker_shape
          (((ob.bids.map Prod.fst).filter (fun p => decide (o.price ≤ p))).reverse) ob o now
        rw [hside] at hf
        exact ⟨f, hf⟩
  obtain ⟨f, hf⟩ := hmain
  obtain ⟨st, hst⟩ := add_order_status_shape { o with filled_quantity := f }
  refine ⟨f, st, ?_⟩
  unfold OrderBook.add_order
  simp only [hf, hst, apply_ite OrderBook.orders, orders_add_order_to_book, ite_self]
  exact assocGet_insert_self ..

/-! ### C9: unknown kind/side codes silently default instead of rejecting -/

theorem fromI32_type_default (k : Int) (h0 : k ≠ 0) (h1 : k ≠ 1) :
    OrderType.fromI32 k = .Limit := by
  unfold OrderType.fromI32
  split <;> first | rfl | simp_all

theorem fromI32_side_default (s : Int) (h0 : s ≠ 0) (h1 : s ≠ 1) :
    OrderSide.fromI32 s = .Bid := by
  unfold OrderSide.fromI32
  split <;> first | rfl | simp_all

/-- The order the C9 counterexample creates. -/
def orderC9 : Order :=
  { id := 1, request_id := 0, symbol_id := 1, account_id := 1, order_type := .Limit,
    side := .Bid, price := 10, quantity := 1, filled_quantity := 0,
    status := .Pending, created_at := 0 }

/-- C9 counterexample: a PlaceOrder with kind code 7 and side code 9 is not
rejected: `place_order` returns `Ok` with a fresh order id, and a Limit Bid
order is created and rests in the book. -/
theorem C9_counterexample_codes_accepted :
    MatchingEngine.new.place_order 0 1 1 7 9 (some 10) (some 1) 0
      = .ok ((1, []),
        { order_books := [(1,
            { symbol_id := 1,
              bids := [(10, { price := 10, total_quantity := 1, orders := [orderC9] })],
              asks := [], orders := [(1, orderC9)] })],
          next_order_id := 2, trades := [] }) ∧
    orderC9.order_type = .Limit ∧ orderC9.side = .Bid := by
  with_unfolding_all decide

/-- C9 (amended): a PlaceOrder whose kind code is outside 0/1 or whose side
code is outside 0/1 is not rejected: the codes silently default to Limit and
Bid, the call succeeds, and the created order is recorded in the symbol's book
index with kind Limit, side Bid and the given account, price and quantity. -/
theorem C9_unknown_codes_default (k sd : Int) (hk0 : k ≠ 0) (hk1 : k ≠ 1)
    (hs0 : sd ≠ 0) (hs1 : sd ≠ 1) (me : MatchingEngine) (rid : Nat)
    (symbol_id account_id : Int) (p q : Rat) (now : Nat) :
    OrderType.fromI32 k = .Limit ∧ OrderSide.fromI32 sd = .Bid ∧
    ∃ trades me', me.place_order rid symbol_id account_id k sd (some p) (some q) now
        = .ok ((me.next_order_id, trades), me')
      ∧ ∃ ob, assocGet me'.order_books symbol_id = some ob
        ∧ ∃ o', assocGet ob.orders me.next_order_id = some o'
          ∧ o'.order_type = .Limit ∧ o'.side = .Bid ∧ o'.account_id = account_id
          ∧ o'.price = p ∧ o'.quantity = q := by
  have hot : OrderType.fromI32 k = .Limit := fromI32_type_default k hk0 hk1
  have hsd : OrderSide.fromI32 sd = .Bid := fromI32_side_default sd hs0 hs1
  refine ⟨hot, hsd, ?_⟩
  set order0 : Order :=
    { id := me.next_order_id, request_id := rid, symbol_id := symbol_id,
      account_id := account_id, order_type := .Limit, side := .Bid, price := p,
      quantity := q, filled_quantity := 0, status := .Pending, created_at := now }
    with horder0
  set ob0 : OrderBook :=
    (match assocGet me.order_books symbol_id with
      | some ob => ob
      | none => OrderBook.new symbol_id)
    with hob0
  obtain ⟨f, st, hidx⟩ := add_order_index_entry ob0 order0 now
  refine ⟨(ob0.add_order order0 now).1,
    { order_books := assocInsert me.order_books symbol_id (ob0.add_order order0 now).2,
      next_order_id := me.next_order_id + 1,
      trades := me.trades ++ (ob0.add_order order0 now).1 }, ?_, ?_⟩
  · simp only [MatchingEngine.place_order, hot, hsd, reduceIte, ← horder0, ← hob0]
    rfl
  · exact ⟨_, assocGet_insert_self .., _, hidx, rfl, rfl, rfl, rfl, rfl⟩

/-- Witness for C9's amended theorem at kind code 7, side code 9. -/
theorem C9_witness :
    ((7:Int) ≠ 0) ∧ ((7:Int) ≠ 1) ∧ ((9:Int) ≠ 0) ∧ ((9:Int) ≠ 1) ∧
    (OrderType.fromI32 7 = .Limit ∧ OrderSide.fromI32 9 = .Bid ∧
      ∃ trades me', MatchingEngine.new.place_order 0 1 1 7 9 (some 10) (some 1) 0
          = .ok ((MatchingEngine.new.next_order_id, trades), me')
        ∧ ∃ ob, assocGet me'.order_books 1 = some ob
          ∧ ∃ o', assocGet ob.orders MatchingEngine.new.next_order_id = some o'
            ∧ o'.order_type = .Limit ∧ o'.side = .Bid ∧ o'.account_id = 1
            ∧ o'.price = 10 ∧ o'.quantity = 1) :=
  ⟨by decide, by decide, by decide, by decide,
    C9_unknown_codes_default 7 9 (by decide) (by decide) (by decide) (by decide)
      MatchingEngine.new 0 1 1 10 1 0⟩

/-! ### C4: balance invariants under the five operations -/

instance (b : AccountBalance) : Decidable b.identityOK := by
  unfold AccountBalance.identityOK; infer_instance

instance (b : AccountBalance) : Decidable b.nonnegOK := by
  unfold AccountBalance.nonnegOK; infer_instance

instance (op : BalanceOp) : Decidable op.guardOK := by
  cases op <;> unfold BalanceOp.guardOK <;> infer_instance

instance (bm : BalanceManager) : Decidable bm.invariantIdentity := by
  unfold BalanceManager.invariantIdentity; infer_instance

instance (bm : BalanceManager) : Decidable bm.invariantFull := by
  unfold BalanceManager.invariantFull; infer_instance

theorem assocGet_mem {κ α : Type} [DecidableEq κ] (l : List (κ × α)) (k : κ) (v : α)
    (h : assocGet l k = some v) : (k, v) ∈ l := by
  induction l with
  | nil => simp [assocGet] at h
  | cons hd tl ih =>
    by_cases hh : hd.1 = k
    · simp only [assocGet, if_pos hh, Option.some.injEq] at h
      subst h
      subst hh
      exact List.mem_cons_self _ _
    · simp only [assocGet, if_neg hh] at h
      exact List.mem_cons_of_mem _ (ih h)

theorem mem_balances_set_balance (a : Account) (c : Int) (b : AccountBalance)
    (e : Int × AccountBalance) (he : e ∈ (a.set_balance c b).balances) :
    e = (c, b) ∨ e ∈ a.balances :=
  mem_assocInsert a.balances c b e he

theorem allBalances_set_account {P : AccountBalance → Prop} (bm : BalanceManager) (k : Int)
    (a' : Account) (h : ∀ a ∈ bm.accounts, ∀ e ∈ a.2.balances, P e.2)
    (ha : ∀ e ∈ a'.balances, P e.2) :
    ∀ a ∈ (bm.set_account k a').accounts, ∀ e ∈ a.2.balances, P e.2 := by
  intro a hx e he
  rcases mem_assocInsert bm.accounts k a' a hx with h' | h'
  · subst h'
    exact ha e he
  · exact h a h' e he

theorem balances_get_account_or_new {P : AccountBalance → Prop} (bm : BalanceManager) (k : Int)
    (h : ∀ a ∈ bm.accounts, ∀ e ∈ a.2.balances, P e.2) :
    ∀ e ∈ (bm.get_account_or_new k).balances, P e.2 := by
  intro e he
  unfold BalanceManager.get_account_or_new at he
  rcases hg : assocGet bm.accounts k with _ | a
  · rw [hg] at he
    simp [Account.new] at he
  · rw [hg] at he
    exact h (k, a) (assocGet_mem bm.accounts k a hg) e he

theorem get_balance_value_P {P : AccountBalance → Prop} (a : Account) (c : Int)
    (ha : ∀ e ∈ a.balances, P e.2) (hz : ∀ cid, P (AccountBalance.new cid)) :
    P (a.get_balance_value c) := by
  unfold Account.get_balance_value
  rcases hg : assocGet a.balances c with _ | b
  · exact hz c
  · exact ha (c, b) (assocGet_mem a.balances c b hg)

theorem preserve_one_write {P : AccountBalance → Prop} (bm : BalanceManager) (k c : Int)
    (b' : AccountBalance) (h : ∀ a ∈ bm.accounts, ∀ e ∈ a.2.balances, P e.2) (hb : P b') :
    ∀ a ∈ (bm.set_account k ((bm.get_account_or_new k).set_balance c b')).accounts,
      ∀ e ∈ a.2.balances, P e.2 := by
  apply allBalances_set_account bm k _ h
  intro e he
  rcases mem_balances_set_balance _ _ _ _ he with h' | h'
  · rw [h']
    exact hb
  · exact balances_get_account_or_new bm k h e h'

theorem preserve_two_writes {P : AccountBalance → Prop} (bm : BalanceManager) (k c1 c2 : Int)
    (b1 b2 : AccountBalance) (h : ∀ a ∈ bm.accounts, ∀ e ∈ a.2.balances, P e.2)
    (hb1 : P b1) (hb2 : P b2) :
    ∀ a ∈ (bm.set_account k
        (((bm.get_account_or_new k).set_balance c1 b1).set_balance c2 b2)).accounts,
      ∀ e ∈ a.2.balances, P e.2 := by
  apply allBalances_set_account bm k _ h
  intro e he
  rcases mem_balances_set_balance _ _ _ _ he with h' | h'
  · rw [h']
    exact hb2
  · rcases mem_balances_set_balance _ _ _ _ h' with h'' | h''
    · rw [h'']
      exact hb1
    · exact balances_get_account_or_new bm k h e h''

theorem handle_freeze_identity (bm : BalanceManager) (a c : Int) (amt : Option Rat)
    (h : bm.invariantIdentity) : (bm.handle_freeze a c amt).2.invariantIdentity := by
  have h' : ∀ x ∈ bm.accounts, ∀ e ∈ x.2.balances, e.2.identityOK := h
  have hzero : ∀ cid, (AccountBalance.new cid).identityOK := by
    intro cid
    simp [AccountBalance.new, AccountBalance.identityOK]
  have hb := get_balance_value_P (bm.get_account_or_new a) c
    (balances_get_account_or_new bm a h') hzero
  rcases amt with _ | amount
  · exact h
  · by_cases hg : amount ≤ 0
    · have hres : ((bm.get_account_or_new a).get_balance_value c).freeze amount
          = .error (.InvalidAmount "Amount must be positive") := by
        simp [AccountBalance.freeze, hg]
      simp only [BalanceManager.handle_freeze, hres]
      exact preserve_one_write bm a c _ h' hb
    · by_cases hav : ((bm.get_account_or_new a).get_balance_value c).available < amount
      · have hres : ((bm.get_account_or_new a).get_balance_value c).freeze amount
            = .error .InsufficientBalance := by
          simp [AccountBalance.freeze, hg, hav]
        simp only [BalanceManager.handle_freeze, hres]
        exact preserve_one_write bm a c _ h' hb
      · have hres : ((bm.get_account_or_new a).get_balance_value c).freeze amount
            = .ok { (bm.get_account_or_new a).get_balance_value c with
                available := ((bm.get_account_or_new a).get_balance_value c).available
                  - amount,
                frozen := ((bm.get_account_or_new a).get_balance_value c).frozen
                  + amount } := by
          simp [AccountBalance.freeze, hg, hav]
        simp only [BalanceManager.handle_freeze, hres]
        apply preserve_one_write bm a c _ h'
        unfold AccountBalance.identityOK at hb ⊢
        dsimp only
        linarith

theorem handle_freeze_full (bm : BalanceManager) (a c : Int) (amt : Option Rat)
    (h : bm.invariantFull) : (bm.handle_freeze a c amt).2.invariantFull := by
  have h' : ∀ x ∈ bm.accounts, ∀ e ∈ x.2.balances, e.2.identityOK ∧ e.2.nonnegOK := h
  have hzero : ∀ cid, (AccountBalance.new cid).identityOK ∧ (AccountBalance.new cid).nonnegOK := by
    intro cid
    simp [AccountBalance.new, AccountBalance.identityOK, AccountBalance.nonnegOK]
  have hb := get_balance_value_P (P := fun b => b.identityOK ∧ b.nonnegOK)
    (bm.get_account_or_new a) c
    (balances_get_account_or_new (P := fun b => b.identityOK ∧ b.nonnegOK) bm a h') hzero
  rcases amt with _ | amount
  · exact h
  · by_cases hg : amount ≤ 0
    · have hres : ((bm.get_account_or_new a).get_balance_value c).freeze amount
          = .error (.InvalidAmount "Amount must be positive") := by
        simp [AccountBalance.freeze, hg]
      simp only [BalanceManager.handle_freeze, hres]
      exact preserve_one_write (P := fun b => b.identityOK ∧ b.nonnegOK) bm a c _ h' hb
    · by_cases hav : ((bm.get_account_or_new a).get_balance_value c).available < amount
      · have hres : ((bm.get_account_or_new a).get_balance_value c).freeze amount
            = .error .InsufficientBalance := by
          simp [AccountBalance.freeze, hg, hav]
        simp only [BalanceManager.handle_freeze, hres]
        exact preserve_one_write (P := fun b => b.identityOK ∧ b.nonnegOK) bm a c _ h' hb
      · have hres : ((bm.get_account_or_new a).get_balance_value c).freeze amount
            = .ok { (bm.get_account_or_new a).get_balance_value c with
                available := ((bm.get_account_or_new a).get_balance_value c).available
                  - amount,
                frozen := ((bm.get_account_or_new a).get_balance_value c).frozen
                  + amount } := by
          simp [AccountBalance.freeze, hg, hav]
        simp only [BalanceManager.handle_freeze, hres]
        apply preserve_one_write (P := fun b => b.identityOK ∧ b.nonnegOK) bm a c _ h'
        have hbi := hb.1
        have hbf := hb.2.1
        have hba := hb.2.2
        unfold AccountBalance.identityOK at hbi ⊢
        unfold AccountBalance.nonnegOK at hbf hba ⊢
        dsimp only at hbf hba ⊢
        refine ⟨by linarith, by push_neg at hav; constructor <;> linarith⟩

theorem modify_balance_P {P : AccountBalance → Prop} (a : Account) (c : Int)
    (g : AccountBalance → AccountBalance) (hg : ∀ b, P b → P (g b))
    (ha : ∀ e ∈ a.balances, P e.2) (hz : ∀ cid, P (AccountBalance.new cid)) :
    ∀ e ∈ (a.set_balance c (g (a.get_balance_value c))).balances, P e.2 := by
  intro e he
  rcases mem_balances_set_balance _ _ _ _ he with h' | h'
  · rw [h']
    exact hg _ (get_balance_value_P a c ha hz)
  · exact ha e h'

theorem zero_identity : ∀ cid, (AccountBalance.new cid).identityOK := by
  intro cid
  simp [AccountBalance.new, AccountBalance.identityOK]

theorem zero_full : ∀ cid, (AccountBalance.new cid).identityOK ∧ (AccountBalance.new cid).nonnegOK := by
  intro cid
  simp [AccountBalance.new, AccountBalance.identityOK, AccountBalance.nonnegOK]

theorem handle_increase_identity (bm : BalanceManager) (a c : Int) (amt : Option Rat)
    (h : bm.invariantIdentity) : (bm.handle_increase a c amt).2.invariantIdentity := by
  have h' : ∀ x ∈ bm.accounts, ∀ e ∈ x.2.balances, e.2.identityOK := h
  have hb := get_balance_value_P (bm.get_account_or_new a) c
    (balances_get_account_or_new bm a h') zero_identity
  rcases amt with _ | amount
  · exact h
  · by_cases hg : amount ≤ 0
    · have hres : ((bm.get_account_or_new a).get_balance_value c).increase amount
          = .error (.InvalidAmount "Amount must be positive") := by
        simp [AccountBalance.increase, hg]
      simp only [BalanceManager.handle_increase, hres]
      exact preserve_one_write bm a c _ h' hb
    · have hres : ((bm.get_account_or_new a).get_balance_value c).increase amount
          = .ok { (bm.get_account_or_new a).get_balance_value c with
              total := ((bm.get_account_or_new a).get_balance_value c).total + amount,
              available := ((bm.get_account_or_new a).get_balance_value c).available
                + amount } := by
        simp [AccountBalance.increase, hg]
      simp only [BalanceManager.handle_increase, hres]
      apply preserve_one_write bm a c _ h'
      unfold AccountBalance.identityOK at hb ⊢
      dsimp only
      linarith

theorem handle_increase_full (bm : BalanceManager) (a c : Int) (amt : Option Rat)
    (h : bm.invariantFull) : (bm.handle_increase a c amt).2.invariantFull := by
  have h' : ∀ x ∈ bm.accounts, ∀ e ∈ x.2.balances, e.2.identityOK ∧ e.2.nonnegOK := h
  have hb := get_balance_value_P (P := fun b => b.identityOK ∧ b.nonnegOK)
    (bm.get_account_or_new a) c
    (balances_get_account_or_new (P := fun b => b.identityOK ∧ b.nonnegOK) bm a h')
    zero_full
  rcases amt with _ | amount
  · exact h
  · by_cases hg : amount ≤ 0
    · have hres : ((bm.get_account_or_new a).get_balance_value c).increase amount
          = .error (.InvalidAmount "Amount must be positive") := by
        simp [AccountBalance.increase, hg]
      simp only [BalanceManager.handle_increase, hres]
      exact preserve_one_write (P := fun b => b.identityOK ∧ b.nonnegOK) bm a c _ h' hb
    · have hres : ((bm.get_account_or_new a).get_balance_value c).increase amount
          = .ok { (bm.get_account_or_new a).get_balance_value c with
              total := ((bm.get_account_or_new a).get_balance_value c).total + amount,
              available := ((bm.get_account_or_new a).get_balance_value c).available
                + amount } := by
        simp [AccountBalance.increase, hg]
      simp only [BalanceManager.handle_increase, hres]
      apply preserve_one_write (P := fun b => b.identityOK ∧ b.nonnegOK) bm a c _ h'
      have hbi := hb.1
      have hbf := hb.2.1
      have hba := hb.2.2
      unfold AccountBalance.identityOK at hbi ⊢
      unfold AccountBalance.nonnegOK at hbf hba ⊢
      dsimp only at hbf hba ⊢
      push_neg at hg
      exact ⟨by linarith, by linarith, by linarith⟩

theorem handle_decrease_identity (bm : BalanceManager) (a c : Int) (amt : Option Rat)
    (h : bm.invariantIdentity) : (bm.handle_decrease a c amt).2.invariantIdentity := by
  have h' : ∀ x ∈ bm.accounts, ∀ e ∈ x.2.balances, e.2.identityOK := h
  have hb := get_balance_value_P (bm.get_account_or_new a) c
    (balances_get_account_or_new bm a h') zero_identity
  rcases amt with _ | amount
  · exact h
  · by_cases hg : amount ≤ 0
    · have hres : ((bm.get_account_or_new a).get_balance_value c).decrease amount
          = .error (.InvalidAmount "Amount must be positive") := by
        simp [AccountBalance.decrease, hg]
      simp only [BalanceManager.handle_decrease, hres]
      exact preserve_one_write bm a c _ h' hb
    · by_cases hav : ((bm.get_account_or_new a).get_balance_value c).available < amount
      · have hres : ((bm.get_account_or_new a).get_balance_value c).decrease amount
            = .error .InsufficientBalance := by
          simp [AccountBalance.decrease, hg, hav]
        simp only [BalanceManager.handle_decrease, hres]
        exact preserve_one_write bm a c _ h' hb
      · have hres : ((bm.get_account_or_new a).get_balance_value c).decrease amount
            = .ok { (bm.get_account_or_new a).get_balance_value c with
                total := ((bm.get_account_or_new a).get_balance_value c).total - amount,
                available := ((bm.get_account_or_new a).get_balance_value c).available
                  - amount } := by
          simp [AccountBalance.decrease, hg, hav]
        simp only [BalanceManager.handle_decrease, hres]
        apply preserve_one_write bm a c _ h'
        unfold AccountBalance.identityOK at hb ⊢
        dsimp only
        linarith

theorem handle_decrease_full (bm : BalanceManager) (a c : Int) (amt : Option Rat)
    (h : bm.invariantFull) : (bm.handle_decrease a c amt).2.invariantFull := by
  have h' : ∀ x ∈ bm.accounts, ∀ e ∈ x.2.balances, e.2.identityOK ∧ e.2.nonnegOK := h
  have hb := get_balance_value_P (P := fun b => b.identityOK ∧ b.nonnegOK)
    (bm.get_account_or_new a) c
    (balances_get_account_or_new (P := fun b => b.identityOK ∧ b.nonnegOK) bm a h')
    zero_full
  rcases amt with _ | amount
  · exact h
  · by_cases hg : amount ≤ 0
    · have hres : ((bm.get_account_or_new a).get_balance_value c).decrease amount
          = .error (.InvalidAmount "Amount must be positive") := by
        simp [AccountBalance.decrease, hg]
      simp only [BalanceManager.handle_decrease, hres]
      exact preserve_one_write (P := fun b => b.identityOK ∧ b.nonnegOK) bm a c _ h' hb
    · by_cases hav : ((bm.get_account_or_new a).get_balance_value c).available < amount
      · have hres : ((bm.get_account_or_new a).get_balance_value c).decrease amount
            = .error .InsufficientBalance := by
          simp [AccountBalance.decrease, hg, hav]
        simp only [BalanceManager.handle_decrease, hres]
        exact preserve_one_write (P := fun b => b.identityOK ∧ b.nonnegOK) bm a c _ h' hb
      · have hres : ((bm.get_account_or_new a).get_balance_value c).decrease amount
            = .ok { (bm.get_account_or_new a).get_balance_value c with
                total := ((bm.get_account_or_new a).get_balance_value c).total - amount,
                available := ((bm.get_account_or_new a).get_balance_value c).available
                  - amount } := by
          simp [AccountBalance.decrease, hg, hav]
        simp only [BalanceManager.handle_decrease, hres]
        apply preserve_one_write (P := fun b => b.identityOK ∧ b.nonnegOK) bm a c _ h'
        have hbi := hb.1
        have hbf := hb.2.1
        have hba := hb.2.2
        unfold AccountBalance.identityOK at hbi ⊢
        unfold AccountBalance.nonnegOK at hbf hba ⊢
        dsimp only at hbf hba ⊢
        push_neg at hav
        exact ⟨by linarith, by linarith, by linarith⟩

theorem unfreeze_order_identity (i : Nat) (bm : BalanceManager) (o : Order)
    (bm' : BalanceManager) (h : bm.invariantIdentity)
    (hr : SequencerProcessor.unfreeze_order_balance i bm o = .ok bm') :
    bm'.invariantIdentity := by
  have h' : ∀ x ∈ bm.accounts, ∀ e ∈ x.2.balances, e.2.identityOK := h
  unfold SequencerProcessor.unfreeze_order_balance at hr
  rcases hsym : get_symbol o.symbol_id with _ | symbol
  · rw [hsym] at hr
    cases hr
  · rw [hsym] at hr
    simp only at hr
    by_cases hsh : (Int.tmod o.account_id 10).natAbs ≠ i
    · rw [if_pos hsh] at hr
      injection hr with h2
      subst h2
      exact h
    · rw [if_neg hsh] at hr
      injection hr with h2
      subst h2
      apply allBalances_set_account bm _ _ h'
      intro e he
      rcases mem_balances_set_balance _ _ _ _ he with h2 | h2
      · have hb := get_balance_value_P (bm.get_account_or_new o.account_id)
          (match o.side with
            | OrderSide.Bid => symbol.quote
            | OrderSide.Ask => symbol.base)
          (balances_get_account_or_new bm _ h') zero_identity
        rw [h2]
        dsimp only
        split
        · unfold AccountBalance.identityOK at hb ⊢
          dsimp only
          linarith
        · unfold AccountBalance.identityOK at hb ⊢
          dsimp only
          linarith
      · exact balances_get_account_or_new bm _ h' e h2

theorem unfreeze_order_full (i : Nat) (bm : BalanceManager) (o : Order)
    (bm' : BalanceManager) (h : bm.invariantFull)
    (hp : 0 ≤ o.price) (hq : o.filled_quantity ≤ o.quantity)
    (hr : SequencerProcessor.unfreeze_order_balance i bm o = .ok bm') :
    bm'.invariantFull := by
  have h' : ∀ x ∈ bm.accounts, ∀ e ∈ x.2.balances, e.2.identityOK ∧ e.2.nonnegOK := h
  have ham : 0 ≤ (match o.side with
      | OrderSide.Bid => o.price * o.remaining_quantity
      | OrderSide.Ask => o.remaining_quantity) := by
    have hrem : 0 ≤ o.remaining_quantity := by
      unfold Order.remaining_quantity
      linarith
    cases o.side
    · exact mul_nonneg hp hrem
    · exact hrem
  unfold SequencerProcessor.unfreeze_order_balance at hr
  rcases hsym : get_symbol o.symbol_id with _ | symbol
  · rw [hsym] at hr
    cases hr
  · rw [hsym] at hr
    simp only at hr
    by_cases hsh : (Int.tmod o.account_id 10).natAbs ≠ i
    · rw [if_pos hsh] at hr
      injection hr with h2
      subst h2
      exact h
    · rw [if_neg hsh] at hr
      injection hr with h2
      subst h2
      apply allBalances_set_account (P := fun b => b.identityOK ∧ b.nonnegOK) bm _ _ h'
      intro e he
      rcases mem_balances_set_balance _ _ _ _ he with h2 | h2
      · have hb := get_balance_value_P (P := fun b => b.identityOK ∧ b.nonnegOK)
          (bm.get_account_or_new o.account_id)
          (match o.side with
            | OrderSide.Bid => symbol.quote
            | OrderSide.Ask => symbol.base)
          (balances_get_account_or_new (P := fun b => b.identityOK ∧ b.nonnegOK)
            bm _ h') zero_full
        have hbi := hb.1
        have hbf := hb.2.1
        have hba := hb.2.2
        rw [h2]
        dsimp only
        unfold AccountBalance.identityOK at hbi ⊢
        unfold AccountBalance.nonnegOK at hbf hba ⊢
        split
        next hc =>
          dsimp only at hbf hba ⊢
          exact ⟨by linarith, by linarith, by linarith⟩
        next hc =>
          push_neg at hc
          dsimp only at hbf hba ⊢
          exact ⟨by linarith, by linarith, by linarith⟩
      · exact balances_get_account_or_new (P := fun b => b.identityOK ∧ b.nonnegOK)
          bm _ h' e h2

theorem execute_single_trade_identity (i : Nat) (bm : BalanceManager) (t : Trade)
    (bm' : BalanceManager) (h : bm.invariantIdentity)
    (hr : SequencerProcessor.execute_single_trade i bm t = .ok bm') :
    bm'.invariantIdentity := by
  unfold SequencerProcessor.execute_single_trade at hr
  rcases hsym : get_symbol t.symbol_id with _ | symbol
  · rw [hsym] at hr
    cases hr
  · rw [hsym] at hr
    simp only at hr
    injection hr with h2
    subst h2
    have step : ∀ (bm0 : BalanceManager) (k c1 c2 : Int) (d1 d2 : Rat),
        bm0.invariantIdentity →
        (bm0.set_account k
          (((bm0.get_account_or_new k).set_balance c1
              { (bm0.get_account_or_new k).get_balance_value c1 with
                frozen := ((bm0.get_account_or_new k).get_balance_value c1).frozen - d1,
                total := ((bm0.get_account_or_new k).get_balance_value c1).total
                  - d1 }).set_balance c2
            { ((bm0.get_account_or_new k).set_balance c1
                { (bm0.get_account_or_new k).get_balance_value c1 with
                  frozen := ((bm0.get_account_or_new k).get_balance_value c1).frozen - d1,
                  total := ((bm0.get_account_or_new k).get_balance_value c1).total
                    - d1 }).get_balance_value c2 with
              total := (((bm0.get_account_or_new k).set_balance c1
                { (bm0.get_account_or_new k).get_balance_value c1 with
                  frozen := ((bm0.get_account_or_new k).get_balance_value c1).frozen - d1,
                  total := ((bm0.get_account_or_new k).get_balance_value c1).total
                    - d1 }).get_balance_value c2).total + d2,
              available := (((bm0.get_account_or_new k).set_balance c1
                { (bm0.get_account_or_new k).get_balance_value c1 with
                  frozen := ((bm0.get_account_or_new k).get_balance_value c1).frozen - d1,
                  total := ((bm0.get_account_or_new k).get_balance_value c1).total
                    - d1 }).get_balance_value c2).available + d2 })).invariantIdentity := by
      intro bm0 k c1 c2 d1 d2 h0
      have h0' : ∀ x ∈ bm0.accounts, ∀ e ∈ x.2.balances, e.2.identityOK := h0
      have hbq := get_balance_value_P (bm0.get_account_or_new k) c1
        (balances_get_account_or_new bm0 k h0') zero_identity
      have hacc1 : ∀ e ∈ ((bm0.get_account_or_new k).set_balance c1
          { (bm0.get_account_or_new k).get_balance_value c1 with
            frozen := ((bm0.get_account_or_new k).get_balance_value c1).frozen - d1,
            total := ((bm0.get_account_or_new k).get_balance_value c1).total
              - d1 }).balances, e.2.identityOK := by
        intro e he
        rcases mem_balances_set_balance _ _ _ _ he with h2 | h2
        · rw [h2]
          unfold AccountBalance.identityOK at hbq ⊢
          dsimp only
          linarith
        · exact balances_get_account_or_new bm0 k h0' e h2
      have hbb := get_balance_value_P _ c2 hacc1 zero_identity
      apply allBalances_set_account bm0 _ _ h0'
      intro e he
      rcases mem_balances_set_balance _ _ _ _ he with h2 | h2
      · rw [h2]
        unfold AccountBalance.identityOK at hbb ⊢
        dsimp only
        linarith
      · exact hacc1 e h2
    by_cases g1 : (Int.tmod t.buy_account_id 10).natAbs = i
    · by_cases g2 : (Int.tmod t.sell_account_id 10).natAbs = i
      · simp only [if_pos g1, if_pos g2]
        exact step _ _ _ _ _ _ (step bm _ _ _ _ _ h)
      · simp only [if_pos g1, if_neg g2]
        exact step bm _ _ _ _ _ h
    · by_cases g2 : (Int.tmod t.sell_account_id 10).natAbs = i
      · simp only [if_neg g1, if_pos g2]
        exact step bm _ _ _ _ _ h
      · simp only [if_neg g1, if_neg g2]
        exact h

theorem applyOp_identity (bm : BalanceManager) (op : BalanceOp)
    (h : bm.invariantIdentity) : (applyOp bm op).invariantIdentity := by
  cases op with
  | increase a c amt => exact handle_increase_identity bm a c amt h
  | decrease a c amt => exact handle_decrease_identity bm a c amt h
  | placeOrder a sy sd pr qt =>
    show (bm.handle_place_order a sy sd pr qt).2.invariantIdentity
    unfold BalanceManager.handle_place_order
    rcases hsym : get_symbol sy with _ | symbol
    · exact h
    · by_cases hsd : sd = 0
      · simp only [hsd, reduceIte]
        rcases pr with _ | price
        · exact h
        · rcases qt with _ | qty
          · exact h
          · simp only
            split
            · exact handle_freeze_identity bm a symbol.quote _ h
            · exact handle_freeze_identity bm a symbol.quote _ h
      · simp only [if_neg hsd]
        rcases qt with _ | qty
        · exact h
        · simp only
          split
          · exact handle_freeze_identity bm a symbol.base _ h
          · exact handle_freeze_identity bm a symbol.base _ h
  | unfreezeOrder i o =>
    show (match SequencerProcessor.unfreeze_order_balance i bm o with
      | .ok bm2 => bm2
      | .error _ => bm).invariantIdentity
    rcases hr : SequencerProcessor.unfreeze_order_balance i bm o with e | bm2
    · exact h
    · exact unfreeze_order_identity i bm o bm2 h hr
  | settleTrade i t =>
    show (match SequencerProcessor.execute_single_trade i bm t with
      | .ok bm2 => bm2
      | .error _ => bm).invariantIdentity
    rcases hr : SequencerProcessor.execute_single_trade i bm t with e | bm2
    · exact h
    · exact execute_single_trade_identity i bm t bm2 h hr

theorem applyOp_full (bm : BalanceManager) (op : BalanceOp)
    (hg : op.guardOK) (h : bm.invariantFull) : (applyOp bm op).invariantFull := by
  cases op with
  | increase a c amt => exact handle_increase_full bm a c amt h
  | decrease a c amt => exact handle_decrease_full bm a c amt h
  | placeOrder a sy sd pr qt =>
    show (bm.handle_place_order a sy sd pr qt).2.invariantFull
    unfold BalanceManager.handle_place_order
    rcases hsym : get_symbol sy with _ | symbol
    · exact h
    · by_cases hsd : sd = 0
      · simp only [hsd, reduceIte]
        rcases pr with _ | price
        · exact h
        · rcases qt with _ | qty
          · exact h
          · simp only
            split
            · exact handle_freeze_full bm a symbol.quote _ h
            · exact handle_freeze_full bm a symbol.quote _ h
      · simp only [if_neg hsd]
        rcases qt with _ | qty
        · exact h
        · simp only
          split
          · exact handle_freeze_full bm a symbol.base _ h
          · exact handle_freeze_full bm a symbol.base _ h
  | unfreezeOrder i o =>
    show (match SequencerProcessor.unfreeze_order_balance i bm o with
      | .ok bm2 => bm2
      | .error _ => bm).invariantFull
    rcases hr : SequencerProcessor.unfreeze_order_balance i bm o with e | bm2
    · exact h
    · exact unfreeze_order_full i bm o bm2 h hg.1 hg.2 hr
  | settleTrade i t => exact absurd hg not_false

/-- C4 (amended): every sequence of the five balance operations preserves the
identity `total = frozen + available` for every stored (account, currency)
balance; and every sequence that contains no trade settlement and feeds
cancel-unfreeze only well-formed orders (`0 ≤ price`, `filled ≤ quantity`)
additionally preserves `frozen ≥ 0` and `available ≥ 0`. Trade settlement
writes balance fields unguarded and can drive `frozen` (and `total`) negative
(see the counterexample), so the claim's full invariant does not survive it. -/
theorem C4_guarded_ops_keep_invariants (bm : BalanceManager) (ops : List BalanceOp) :
    (bm.invariantIdentity → (applyOps bm ops).invariantIdentity) ∧
    ((∀ op ∈ ops, op.guardOK) → bm.invariantFull → (applyOps bm ops).invariantFull) := by
  induction ops generalizing bm with
  | nil => exact ⟨id, fun _ h => h⟩
  | cons op ops ih =>
    constructor
    · intro h
      exact (ih (applyOp bm op)).1 (applyOp_identity bm op h)
    · intro hg h
      exact (ih (applyOp bm op)).2 (fun x hx => hg x (List.mem_cons_of_mem _ hx))
        (applyOp_full bm op (hg op (List.mem_cons_self _ _)) h)

/-- C4 counterexample: a single trade settlement applied to an empty shard
(account 1 never froze anything) drives the buyer's quote `frozen` and `total`
to −10 < 0: the claim's invariant `frozen ≥ 0` fails after a trade-settlement
balance operation. -/
theorem C4_counterexample_settlement_negative :
    ¬ (applyOps BalanceManager.new [.settleTrade 1 tradeC2]).invariantFull ∧
    ((applyOps BalanceManager.new [.settleTrade 1 tradeC2]).tripleView 1 2).2.1 = -10 ∧
    (applyOps BalanceManager.new [.settleTrade 1 tradeC2]).invariantIdentity := by
  with_unfolding_all decide

/-- Witness for C4's amended theorem: a deposit, a place-order freeze, a
cancel unfreeze and a withdrawal on account 1, starting from the empty state. -/
def orderC4 : Order :=
  { id := 31, request_id := 0, symbol_id := 1, account_id := 1, order_type := .Limit,
    side := .Bid, price := 5, quantity := 2, filled_quantity := 0,
    status := .Pending, created_at := 0 }

def opsC4 : List BalanceOp :=
  [.increase 1 2 (some 100), .placeOrder 1 1 0 (some 5) (some 2),
    .unfreezeOrder 1 orderC4, .decrease 1 2 (some 50)]

theorem C4_witness :
    (BalanceManager.new.invariantIdentity →
      (applyOps BalanceManager.new opsC4).invariantIdentity) ∧
    ((∀ op ∈ opsC4, op.guardOK) → BalanceManager.new.invariantFull →
      (applyOps BalanceManager.new opsC4).invariantFull) ∧
    (∀ op ∈ opsC4, op.guardOK) ∧ BalanceManager.new.invariantFull ∧
    (applyOps BalanceManager.new opsC4).invariantFull :=
  ⟨(C4_guarded_ops_keep_invariants BalanceManager.new opsC4).1,
    (C4_guarded_ops_keep_invariants BalanceManager.new opsC4).2,
    by with_unfolding_all decide, by with_unfolding_all decide,
    (C4_guarded_ops_keep_invariants BalanceManager.new opsC4).2
      (by with_unfolding_all decide) (by with_unfolding_all decide)⟩

/-! ### Order-book side lemmas for C5 and C8 -/

/-- The taker's own-side map (the one matching never touches). -/
def OrderBook.sameSide (ob : OrderBook) (side : OrderSide) : List (Rat × PriceLevel) :=
  match side with
  | .Bid => ob.bids
  | .Ask => ob.asks

/-- The id of the maker (resting) order recorded in a trade: for a Bid taker
the maker is the sell side, for an Ask taker the buy side. -/
def tradeMakerOrderId (side : OrderSide) (t : Trade) : Nat :=
  match side with
  | .Bid => t.sell_order_id
  | .Ask => t.buy_order_id

theorem oppSide_setOppSide (ob : OrderBook) (side : OrderSide) (b : List (Rat × PriceLevel)) :
    ((ob.setOppSide side b).oppSide side) = b := by
  cases side <;> rfl

theorem sameSide_setOppSide (ob : OrderBook) (side : OrderSide) (b : List (Rat × PriceLevel)) :
    ((ob.setOppSide side b).sameSide side) = ob.sameSide side := by
  cases side <;> rfl

theorem oppSide_orders_update (ob : OrderBook) (side : OrderSide) (x : List (Nat × Order)) :
    ({ ob with orders := x } : OrderBook).oppSide side = ob.oppSide side := by
  cases side <;> rfl

theorem sameSide_orders_update (ob : OrderBook) (side : OrderSide) (x : List (Nat × Order)) :
    ({ ob with orders := x } : OrderBook).sameSide side = ob.sameSide side := by
  cases side <;> rfl

theorem mem_sideOrders_of_mem_level (side : List (Rat × PriceLevel)) (e : Rat × PriceLevel)
    (o : Order) (he : e ∈ side) (ho : o ∈ e.2.orders) : o ∈ sideOrders side := by
  induction side with
  | nil => cases he
  | cons hd tl ih =>
    rcases List.mem_cons.1 he with he2 | he2
    · subst he2
      exact List.mem_append_left _ ho
    · exact List.mem_append_right _ (ih he2)

theorem mem_sideOrders_assocInsert (side : List (Rat × PriceLevel)) (p : Rat)
    (lvl : PriceLevel) (o : Order) (ho : o ∈ sideOrders (assocInsert side p lvl)) :
    o ∈ lvl.orders ∨ o ∈ sideOrders side := by
  induction side with
  | nil => simpa [assocInsert, sideOrders] using ho
  | cons hd tl ih =>
    by_cases hh : hd.1 = p
    · simp only [assocInsert, if_pos hh] at ho
      rcases List.mem_append.1 ho with h | h
      · exact Or.inl h
      · exact Or.inr (List.mem_append_right _ h)
    · simp only [assocInsert, if_neg hh] at ho
      rcases List.mem_append.1 ho with h | h
      · exact Or.inr (List.mem_append_left _ h)
      · rcases ih h with h' | h'
        · exact Or.inl h'
        · exact Or.inr (List.mem_append_right _ h')

theorem mem_sideOrders_assocRemove (side : List (Rat × PriceLevel)) (p : Rat) (o : Order)
    (ho : o ∈ sideOrders (assocRemove side p)) : o ∈ sideOrders side := by
  induction side with
  | nil => simpa [assocRemove, sideOrders] using ho
  | cons hd tl ih =>
    by_cases hh : hd.1 = p
    · simp only [assocRemove, if_pos hh] at ho
      exact List.mem_append_right _ ho
    · simp only [assocRemove, if_neg hh] at ho
      rcases List.mem_append.1 ho with h | h
      · exact List.mem_append_left _ h
      · exact List.mem_append_right _ (ih h)

theorem mem_assocRemove (side : List (Rat × PriceLevel)) (p : Rat) (e : Rat × PriceLevel)
    (he : e ∈ assocRemove side p) : e ∈ side := by
  induction side with
  | nil => simpa [assocRemove] using he
  | cons hd tl ih =>
    by_cases hh : hd.1 = p
    · simp only [assocRemove, if_pos hh] at he
      exact List.mem_cons_of_mem _ he
    · simp only [assocRemove, if_neg hh] at he
      rcases List.mem_cons.1 he with he2 | he2
      · exact he2 ▸ List.mem_cons_self _ _
      · exact List.mem_cons_of_mem _ (ih he2)

theorem sideKeys_assocInsert (side : List (Rat × PriceLevel)) (p : Rat) (lvl lvl0 : PriceLevel)
    (hget : assocGet side p = some lvl0) :
    sideKeys (assocInsert side p lvl) = sideKeys side := by
  induction side with
  | nil => simp [assocGet] at hget
  | cons hd tl ih =>
    by_cases hh : hd.1 = p
    · simp only [assocInsert, if_pos hh, sideKeys, List.map_cons]
      rw [hh]
    · simp only [assocGet, if_neg hh] at hget
      simp only [assocInsert, if_neg hh, sideKeys, List.map_cons]
      have h2 := ih hget
      simp only [sideKeys] at h2
      rw [h2]

theorem sideKeys_assocRemove (side : List (Rat × PriceLevel)) (p : Rat) :
    List.Sublist (sideKeys (assocRemove side p)) (sideKeys side) := by
  induction side with
  | nil => simp [assocRemove, sideKeys]
  | cons hd tl ih =>
    by_cases hh : hd.1 = p
    · simp only [assocRemove, if_pos hh, sideKeys, List.map_cons]
      exact List.sublist_cons_of_sublist _ (List.Sublist.refl _)
    · simp only [assocRemove, if_neg hh, sideKeys, List.map_cons]
      exact List.Sublist.cons₂ _ ih

/-- The one-maker level transformation performed by `match_at_price` on the
opposite-side map: keys only shrink, every surviving resting order keeps the
id and price of a maker that was already resting, and well-formedness is
preserved. -/
theorem level_step (book : List (Rat × PriceLevel)) (p : Rat) (pl : PriceLevel)
    (maker : Order) (rest : List Order) (lvl2 : PriceLevel)
    (bookFinal : List (Rat × PriceLevel))
    (hget : assocGet book p = some pl) (horders : pl.orders = maker :: rest)
    (hbf : bookFinal = assocRemove (assocInsert book p lvl2) p ∨
      bookFinal = assocInsert book p lvl2)
    (hlo : ∀ o ∈ lvl2.orders, (o.id = maker.id ∧ o.price = maker.price) ∨ o ∈ rest) :
    List.Sublist (sideKeys bookFinal) (sideKeys book) ∧
    (∀ o' ∈ sideOrders bookFinal, ∃ m ∈ sideOrders book, m.id = o'.id ∧ m.price = o'.price) ∧
    (sideWF book → sideWF bookFinal) := by
  have hplmem : (p, pl) ∈ book := assocGet_mem book p pl hget
  have hmaker_mem : maker ∈ pl.orders := by
    rw [horders]
    exact List.mem_cons_self _ _
  have hsub0 : ∀ o' ∈ lvl2.orders, ∃ m ∈ pl.orders, m.id = o'.id ∧ m.price = o'.price := by
    intro o' ho'
    rcases hlo o' ho' with ⟨h1, h2⟩ | h2
    · exact ⟨maker, hmaker_mem, h1.symm, h2.symm⟩
    · exact ⟨o', by rw [horders]; exact List.mem_cons_of_mem _ h2, rfl, rfl⟩
  have hkeys_ins : sideKeys (assocInsert book p lvl2) = sideKeys book :=
    sideKeys_assocInsert book p lvl2 pl hget
  have hkeys : List.Sublist (sideKeys bookFinal) (sideKeys book) := by
    rcases hbf with h2 | h2
    · rw [h2, ← hkeys_ins]
      exact sideKeys_assocRemove _ _
    · rw [h2, hkeys_ins]
  have hmemins : ∀ o' ∈ sideOrders bookFinal, o' ∈ lvl2.orders ∨ o' ∈ sideOrders book := by
    intro o' ho'
    rcases hbf with h2 | h2
    · rw [h2] at ho'
      exact mem_sideOrders_assocInsert book p lvl2 o' (mem_sideOrders_assocRemove _ _ _ ho')
    · rw [h2] at ho'
      exact mem_sideOrders_assocInsert book p lvl2 o' ho'
  refine ⟨hkeys, ?_, ?_⟩
  · intro o' ho'
    rcases hmemins o' ho' with h2 | h2
    · obtain ⟨m, hm, hm1, hm2⟩ := hsub0 o' h2
      exact ⟨m, mem_sideOrders_of_mem_level book (p, pl) m hplmem hm, hm1, hm2⟩
    · exact ⟨o', h2, rfl, rfl⟩
  · intro hwf
    constructor
    · exact List.Pairwise.sublist hkeys hwf.1
    · intro e he o ho
      have hein : e ∈ assocInsert book p lvl2 := by
        rcases hbf with h2 | h2
        · rw [h2] at he
          exact mem_assocRemove _ _ _ he
        · rw [h2] at he
          exact he
      rcases mem_assocInsert book p lvl2 e hein with h2 | h2
      · subst h2
        obtain ⟨m, hm, _, hm2⟩ := hsub0 o ho
        rw [← hm2]
        exact hwf.2 (p, pl) hplmem m hm
      · exact hwf.2 e h2 o ho

theorem match_at_price_book (ob : OrderBook) (taker : Order) (p : Rat) (now : Nat) :
    ((ob.match_at_price taker p now).2.2.sameSide taker.side = ob.sameSide taker.side) ∧
    List.Sublist (sideKeys ((ob.match_at_price taker p now).2.2.oppSide taker.side))
      (sideKeys (ob.oppSide taker.side)) ∧
    (∀ o' ∈ sideOrders ((ob.match_at_price taker p now).2.2.oppSide taker.side),
      ∃ m ∈ sideOrders (ob.oppSide taker.side), m.id = o'.id ∧ m.price = o'.price) ∧
    (∀ t, (ob.match_at_price taker p now).1 = some t →
      t.price = p ∧ ∃ m ∈ sideOrders (ob.oppSide taker.side),
        tradeMakerOrderId taker.side t = m.id
          ∧ (sideWF (ob.oppSide taker.side) → m.price = p)) ∧
    (sideWF (ob.oppSide taker.side) →
      sideWF ((ob.match_at_price taker p now).2.2.oppSide taker.side)) := by
  cases hside : taker.side with
  | Bid =>
    simp only [OrderBook.match_at_price, OrderBook.oppSide, OrderBook.sameSide,
      OrderBook.setOppSide, tradeMakerOrderId, hside]
    rcases hget : assocGet ob.asks p with _ | pl
    · dsimp only
      refine ⟨rfl, List.Sublist.refl _, fun o' h => ⟨o', h, rfl, rfl⟩, ?_, fun h => h⟩
      intro t ht
      exact Option.noConfusion ht
    · rcases horders : pl.orders with _ | ⟨maker, rest⟩
      · dsimp only
        rw [horders]
        dsimp only
        refine ⟨rfl, List.Sublist.refl _, fun o' h => ⟨o', h, rfl, rfl⟩, ?_, fun h => h⟩
        intro t ht
        exact Option.noConfusion ht
      · dsimp only
        rw [horders]
        dsimp only
        have hmm : maker ∈ pl.orders := by
          rw [horders]
          exact List.mem_cons_self _ _
        have htr : ∀ t, some ({ id := now, symbol_id := taker.symbol_id,
                                buy_order_id := taker.id, sell_order_id := maker.id,
                                buy_account_id := taker.account_id,
                                sell_account_id := maker.account_id, price := p,
                                quantity := min taker.remaining_quantity
                                  maker.remaining_quantity,
                                created_at := now } : Trade) = some t →
            t.price = p ∧ ∃ m ∈ sideOrders ob.asks, t.sell_order_id = m.id
              ∧ (sideWF ob.asks → m.price = p) := by
          intro t ht
          injection ht with ht
          subst ht
          exact ⟨rfl, maker, mem_sideOrders_of_mem_level ob.asks (p, pl) maker
            (assocGet_mem ob.asks p pl hget) hmm, rfl,
            fun hwf => hwf.2 (p, pl) (assocGet_mem ob.asks p pl hget) maker hmm⟩
        by_cases hc1 : ({ maker with
            filled_quantity := maker.filled_quantity
              + min taker.remaining_quantity maker.remaining_quantity } : Order).is_filled
        · simp only [if_pos hc1]
          refine ⟨trivial, ?_, ?_, htr, ?_⟩
          · exact (level_step ob.asks p pl maker rest _ _ hget horders
              (by split
                  · exact Or.inl rfl
                  · exact Or.inr rfl)
              (by intro o ho
                  exact Or.inr ho)).1
          · exact (level_step ob.asks p pl maker rest _ _ hget horders
              (by split
                  · exact Or.inl rfl
                  · exact Or.inr rfl)
              (by intro o ho
                  exact Or.inr ho)).2.1
          · intro hwf
            exact (level_step ob.asks p pl maker rest _ _ hget horders
              (by split
                  · exact Or.inl rfl
                  · exact Or.inr rfl)
              (by intro o ho
                  exact Or.inr ho)).2.2 hwf
        · simp only [if_neg hc1]
          refine ⟨trivial, ?_, ?_, htr, ?_⟩
          · exact (level_step ob.asks p pl maker rest _ _ hget horders
              (by split
                  · exact Or.inl rfl
                  · exact Or.inr rfl)
              (by intro o ho
                  rcases List.mem_cons.1 ho with h2 | h2
                  · subst h2
                    exact Or.inl ⟨rfl, rfl⟩
                  · exact Or.inr h2)).1
          · exact (level_step ob.asks p pl maker rest _ _ hget horders
              (by split
                  · exact Or.inl rfl
                  · exact Or.inr rfl)
              (by intro o ho
                  rcases List.mem_cons.1 ho with h2 | h2
                  · subst h2
                    exact Or.inl ⟨rfl, rfl⟩
                  · exact Or.inr h2)).2.1
          · intro hwf
            exact (level_step ob.asks p pl maker rest _ _ hget horders
              (by split
                  · exact Or.inl rfl
                  · exact Or.inr rfl)
              (by intro o ho
                  rcases List.mem_cons.1 ho with h2 | h2
                  · subst h2
                    exact Or.inl ⟨rfl, rfl⟩
                  · exact Or.inr h2)).2.2 hwf
  | Ask =>
    simp only [OrderBook.match_at_price, OrderBook.oppSide, OrderBook.sameSide,
      OrderBook.setOppSide, tradeMakerOrderId, hside]
    rcases hget : assocGet ob.bids p with _ | pl
    · dsimp only
      refine ⟨rfl, List.Sublist.refl _, fun o' h => ⟨o', h, rfl, rfl⟩, ?_, fun h => h⟩
      intro t ht
      exact Option.noConfusion ht
    · rcases horders : pl.orders with _ | ⟨maker, rest⟩
      · dsimp only
        rw [horders]
        dsimp only
        refine ⟨rfl, List.Sublist.refl _, fun o' h => ⟨o', h, rfl, rfl⟩, ?_, fun h => h⟩
        intro t ht
        exact Option.noConfusion ht
      · dsimp only
        rw [horders]
        dsimp only
        have hmm : maker ∈ pl.orders := by
          rw [horders]
          exact List.mem_cons_self _ _
        have htr : ∀ t, some ({ id := now, symbol_id := taker.symbol_id,
                                buy_order_id := maker.id, sell_order_id := taker.id,
                                buy_account_id := maker.account_id,
                                sell_account_id := taker.account_id, price := p,
                                quantity := min taker.remaining_quantity
                                  maker.remaining_quantity,
                                created_at := now } : Trade) = some t →
            t.price = p ∧ ∃ m ∈ sideOrders ob.bids, t.buy_order_id = m.id
              ∧ (sideWF ob.bids → m.price = p) := by
          intro t ht
          injection ht with ht
          subst ht
          exact ⟨rfl, maker, mem_sideOrders_of_mem_level ob.bids (p, pl) maker
            (assocGet_mem ob.bids p pl hget) hmm, rfl,
            fun hwf => hwf.2 (p, pl) (assocGet_mem ob.bids p pl hget) maker hmm⟩
        by_cases hc1 : ({ maker with
            filled_quantity := maker.filled_quantity
              + min taker.remaining_quantity maker.remaining_quantity } : Order).is_filled
        · simp only [if_pos hc1]
          refine ⟨trivial, ?_, ?_, htr, ?_⟩
          · exact (level_step ob.bids p pl maker rest _ _ hget horders
              (by split
                  · exact Or.inl rfl
                  · exact Or.inr rfl)
              (by intro o ho
                  exact Or.inr ho)).1
          · exact (level_step ob.bids p pl maker rest _ _ hget horders
              (by split
                  · exact Or.inl rfl
                  · exact Or.inr rfl)
              (by intro o ho
                  exact Or.inr ho)).2.1
          · intro hwf
            exact (level_step ob.bids p pl maker rest _ _ hget horders
              (by split
                  · exact Or.inl rfl
                  · exact Or.inr rfl)
              (by intro o ho
                  exact Or.inr ho)).2.2 hwf
        · simp only [if_neg hc1]
          refine ⟨trivial, ?_, ?_, htr, ?_⟩
          · exact (level_step ob.bids p pl maker rest _ _ hget horders
              (by split
                  · exact Or.inl rfl
                  · exact Or.inr rfl)
              (by intro o ho
                  rcases List.mem_cons.1 ho with h2 | h2
                  · subst h2
                    exact Or.inl ⟨rfl, rfl⟩
                  · exact Or.inr h2)).1
          · exact (level_step ob.bids p pl maker rest _ _ hget horders
              (by split
                  · exact Or.inl rfl
                  · exact Or.inr rfl)
              (by intro o ho
                  rcases List.mem_cons.1 ho with h2 | h2
                  · subst h2
                    exact Or.inl ⟨rfl, rfl⟩
                  · exact Or.inr h2)).2.1
          · intro hwf
            exact (level_step ob.bids p pl maker rest _ _ hget horders
              (by split
                  · exact Or.inl rfl
                  · exact Or.inr rfl)
              (by intro o ho
                  rcases List.mem_cons.1 ho with h2 | h2
                  · subst h2
                    exact Or.inl ⟨rfl, rfl⟩
                  · exact Or.inr h2)).2.2 hwf

theorem match_prices_book (ps : List Rat) (ob : OrderBook) (taker : Order) (now : Nat) :
    ((ob.match_prices taker now ps).2.2.sameSide taker.side = ob.sameSide taker.side) ∧
    List.Sublist (sideKeys ((ob.match_prices taker now ps).2.2.oppSide taker.side))
      (sideKeys (ob.oppSide taker.side)) ∧
    (∀ o' ∈ sideOrders ((ob.match_prices taker now ps).2.2.oppSide taker.side),
      ∃ m ∈ sideOrders (ob.oppSide taker.side), m.id = o'.id ∧ m.price = o'.price) ∧
    List.Sublist ((ob.match_prices taker now ps).1.map Trade.price) ps ∧
    (∀ t ∈ (ob.match_prices taker now ps).1,
      ∃ m ∈ sideOrders (ob.oppSide taker.side), tradeMakerOrderId taker.side t = m.id
        ∧ (sideWF (ob.oppSide taker.side) → m.price = t.price)) ∧
    (sideWF (ob.oppSide taker.side) →
      sideWF ((ob.match_prices taker now ps).2.2.oppSide taker.side)) := by
  induction ps generalizing ob taker now with
  | nil =>
    simp only [OrderBook.match_prices]
    exact ⟨trivial, List.Sublist.refl _, fun o' h => ⟨o', h, rfl, rfl⟩,
      List.nil_sublist _, by simp, fun h => h⟩
  | cons p ps ih =>
    by_cases hr : taker.remaining_quantity ≤ 0
    · simp only [OrderBook.match_prices, if_pos hr]
      exact ⟨trivial, List.Sublist.refl _, fun o' h => ⟨o', h, rfl, rfl⟩,
        List.nil_sublist _, by simp, fun h => h⟩
    · obtain ⟨hsame, hkeys, hsub, htrade, hwfp⟩ := match_at_price_book ob taker p now
      obtain ⟨f1, hf1⟩ := match_at_price_taker_shape ob taker p now
      rcases hm : ob.match_at_price taker p now with ⟨ot, taker1, ob1⟩
      rw [hm] at hf1 hsame hkeys hsub htrade hwfp
      simp only at hf1 hsame hkeys hsub htrade hwfp
      subst hf1
      have IH := ih ob1 { taker with filled_quantity := f1 } (now + 1)
      dsimp only at IH
      rcases ot with _ | t
      · simp only [OrderBook.match_prices, if_neg hr, hm]
        refine ⟨IH.1.trans hsame, IH.2.1.trans hkeys, ?_, IH.2.2.2.1.cons _, ?_,
          fun hwf => IH.2.2.2.2.2 (hwfp hwf)⟩
        · intro o' h
          obtain ⟨m1, hm1, e1, e2⟩ := IH.2.2.1 o' h
          obtain ⟨m0, hm0, e3, e4⟩ := hsub m1 hm1
          exact ⟨m0, hm0, e3.trans e1, e4.trans e2⟩
        · intro t ht
          obtain ⟨m1, hm1, e1, e5⟩ := IH.2.2.2.2.1 t ht
          obtain ⟨m0, hm0, e3, e4⟩ := hsub m1 hm1
          exact ⟨m0, hm0, e1.trans e3.symm, fun hwf => e4.trans (e5 (hwfp hwf))⟩
      · obtain ⟨hp, m0, hm0, hid0, hwfprice0⟩ := htrade t rfl
        simp only [OrderBook.match_prices, if_neg hr, hm]
        refine ⟨IH.1.trans hsame, IH.2.1.trans hkeys, ?_, ?_, ?_,
          fun hwf => IH.2.2.2.2.2 (hwfp hwf)⟩
        · intro o' h
          obtain ⟨m1, hm1, e1, e2⟩ := IH.2.2.1 o' h
          obtain ⟨m0', hm0', e3, e4⟩ := hsub m1 hm1
          exact ⟨m0', hm0', e3.trans e1, e4.trans e2⟩
        · simp only [List.map_cons, hp]
          exact List.Sublist.cons₂ _ IH.2.2.2.1
        · intro t' ht'
          rcases List.mem_cons.1 ht' with h2 | h2
          · subst h2
            exact ⟨m0, hm0, hid0, fun hwf => (hwfprice0 hwf).trans hp.symm⟩
          · obtain ⟨m1, hm1, e1, e5⟩ := IH.2.2.2.2.1 t' h2
            obtain ⟨m0', hm0', e3, e4⟩ := hsub m1 hm1
            exact ⟨m0', hm0', e1.trans e3.symm, fun hwf => e4.trans (e5 (hwfp hwf))⟩

instance (side : List (Rat × PriceLevel)) : Decidable (sideWF side) := by
  unfold sideWF
  infer_instance

instance (ob : OrderBook) : Decidable ob.wf := by
  unfold OrderBook.wf
  infer_instance

theorem pairwise_head_bound (R : Rat → Rat → Prop) (l : List Rat) (h : l.Pairwise R)
    (x : Rat) (hx : l.head? = some x) : ∀ y ∈ l, y = x ∨ R x y := by
  cases l with
  | nil => cases hx
  | cons a t =>
    have hax : a = x := by simpa using hx
    subst hax
    intro y hy
    rcases List.mem_cons.1 hy with h2 | h2
    · exact Or.inl h2
    · exact Or.inr ((List.pairwise_cons.1 h).1 y h2)

theorem sorted_head_le (l : List Rat) (h : l.Pairwise (· < ·)) (x : Rat)
    (hx : l.head? = some x) : ∀ y ∈ l, x ≤ y := by
  intro y hy
  rcases pairwise_head_bound _ l h x hx y hy with h2 | h2
  · exact le_of_eq h2.symm
  · exact le_of_lt h2

theorem sorted_le_getLast (l : List Rat) (h : l.Pairwise (· < ·)) (x : Rat)
    (hx : l.getLast? = some x) : ∀ y ∈ l, y ≤ x := by
  intro y hy
  have hx' : l.reverse.head? = some x := by rw [List.head?_reverse]; exact hx
  have h' : l.reverse.Pairwise (fun a b => b < a) := List.pairwise_reverse.2 h
  rcases pairwise_head_bound _ _ h' x hx' y (List.mem_reverse.2 hy) with h2 | h2
  · exact le_of_eq h2
  · exact le_of_lt h2

theorem mem_of_getLast_some (l : List Rat) (x : Rat) (hx : l.getLast? = some x) : x ∈ l := by
  have hx' : l.reverse.head? = some x := by rw [List.head?_reverse]; exact hx
  exact List.mem_reverse.1 (List.mem_of_mem_head? (Option.mem_def.2 hx'))

/-- The Bid arm of the market-order `while` loop: the bid map is untouched,
surviving asks keep a resting maker's id and price, every trade fills at a
resting ask maker's price, the trade prices are ask keys taken best
(lowest) first, hence non-decreasing, and well-formedness is preserved. -/
theorem match_market_go_bid (fuel : Nat) (ob : OrderBook) (taker : Order) (now : Nat)
    (hside : taker.side = OrderSide.Bid) (hwf : sideWF ob.asks) :
    (ob.match_market_go taker now fuel).2.2.bids = ob.bids ∧
    (∀ o' ∈ sideOrders (ob.match_market_go taker now fuel).2.2.asks,
      ∃ m ∈ sideOrders ob.asks, m.id = o'.id ∧ m.price = o'.price) ∧
    (∀ t ∈ (ob.match_market_go taker now fuel).1,
      ∃ m ∈ sideOrders ob.asks, tradeMakerOrderId OrderSide.Bid t = m.id ∧ m.price = t.price) ∧
    (∀ q ∈ (ob.match_market_go taker now fuel).1.map Trade.price, q ∈ sideKeys ob.asks) ∧
    ((ob.match_market_go taker now fuel).1.map Trade.price).Pairwise (· ≤ ·) ∧
    sideWF (ob.match_market_go taker now fuel).2.2.asks := by
  induction fuel generalizing ob taker now with
  | zero =>
    simp only [OrderBook.match_market_go]
    exact ⟨by trivial, fun o' h => ⟨o', h, rfl, rfl⟩, by simp, by simp, by simp, hwf⟩
  | succ fuel ih =>
    by_cases hr : 0 < taker.remaining_quantity
    · rcases hb : (ob.asks.map Prod.fst).head? with _ | best
      · simp only [OrderBook.match_market_go, hside, hb, if_pos hr]
        exact ⟨by trivial, fun o' h => ⟨o', h, rfl, rfl⟩, by simp, by simp, by simp, hwf⟩
      · have H := match_at_price_book ob taker best now
        rw [hside] at H
        simp only [OrderBook.oppSide, OrderBook.sameSide] at H
        obtain ⟨f1, hf1⟩ := match_at_price_taker_shape ob taker best now
        rcases hm : ob.match_at_price taker best now with ⟨ot, taker1, ob1⟩
        rw [hm] at hf1 H
        simp only at hf1 H
        subst hf1
        obtain ⟨Hsame, Hkeys, Hsub, Htrade, Hwfp⟩ := H
        rcases ot with _ | t
        · simp only [OrderBook.match_market_go, hside, hb, if_pos hr, hm]
          exact ⟨Hsame, Hsub, by simp, by simp, by simp, Hwfp hwf⟩
        · obtain ⟨hp, m0, hm0, hid0, hwfp0⟩ := Htrade t rfl
          have IH := ih ob1 { taker with filled_quantity := f1 } (now + 1) hside (Hwfp hwf)
          simp only [OrderBook.match_market_go, hside, hb, if_pos hr, hm]
          rw [← hside]
          rw [← hside] at hid0 IH
          refine ⟨IH.1.trans Hsame, ?_, ?_, ?_, ?_, IH.2.2.2.2.2⟩
          · intro o' h
            obtain ⟨m1, hm1, e1, e2⟩ := IH.2.1 o' h
            obtain ⟨m2, hm2, e3, e4⟩ := Hsub m1 hm1
            exact ⟨m2, hm2, e3.trans e1, e4.trans e2⟩
          · intro t' ht'
            rcases List.mem_cons.1 ht' with h2 | h2
            · subst h2
              exact ⟨m0, hm0, hid0, (hwfp0 hwf).trans hp.symm⟩
            · obtain ⟨m1, hm1, e1, e5⟩ := IH.2.2.1 t' h2
              obtain ⟨m2, hm2, e3, e4⟩ := Hsub m1 hm1
              exact ⟨m2, hm2, e1.trans e3.symm, e4.trans e5⟩
          · intro q hq
            simp only [List.map_cons] at hq
            rcases List.mem_cons.1 hq with h2 | h2
            · have hbm : best ∈ sideKeys ob.asks :=
                List.mem_of_mem_head? (Option.mem_def.2 hb)
              rw [h2, hp]
              exact hbm
            · exact Hkeys.subset (IH.2.2.2.1 q h2)
          · simp only [List.map_cons]
            refine List.pairwise_cons.2 ⟨?_, IH.2.2.2.2.1⟩
            intro q hq
            have hq2 : q ∈ sideKeys ob.asks := Hkeys.subset (IH.2.2.2.1 q hq)
            rw [hp]
            exact sorted_head_le (sideKeys ob.asks) hwf.1 best hb q hq2
    · simp only [OrderBook.match_market_go, hside, if_neg hr]
      exact ⟨by trivial, fun o' h => ⟨o', h, rfl, rfl⟩, by simp, by simp, by simp, hwf⟩

/-- The Ask arm of the market-order `while` loop: symmetric to the Bid arm,
matching at the highest bid first, so trade prices are non-increasing. -/
theorem match_market_go_ask (fuel : Nat) (ob : OrderBook) (taker : Order) (now : Nat)
    (hside : taker.side = OrderSide.Ask) (hwf : sideWF ob.bids) :
    (ob.match_market_go taker now fuel).2.2.asks = ob.asks ∧
    (∀ o' ∈ sideOrders (ob.match_market_go taker now fuel).2.2.bids,
      ∃ m ∈ sideOrders ob.bids, m.id = o'.id ∧ m.price = o'.price) ∧
    (∀ t ∈ (ob.match_market_go taker now fuel).1,
      ∃ m ∈ sideOrders ob.bids, tradeMakerOrderId OrderSide.Ask t = m.id ∧ m.price = t.price) ∧
    (∀ q ∈ (ob.match_market_go taker now fuel).1.map Trade.price, q ∈ sideKeys ob.bids) ∧
    ((ob.match_market_go taker now fuel).1.map Trade.price).Pairwise (fun a b => b ≤ a) ∧
    sideWF (ob.match_market_go taker now fuel).2.2.bids := by
  induction fuel generalizing ob taker now with
  | zero =>
    simp only [OrderBook.match_market_go]
    exact ⟨by trivial, fun o' h => ⟨o', h, rfl, rfl⟩, by simp, by simp, by simp, hwf⟩
  | succ fuel ih =>
    by_cases hr : 0 < taker.remaining_quantity
    · rcases hb : (ob.bids.map Prod.fst).getLast? with _ | best
      · simp only [OrderBook.match_market_go, hside, hb, if_pos hr]
        exact ⟨by trivial, fun o' h => ⟨o', h, rfl, rfl⟩, by simp, by simp, by simp, hwf⟩
      · have H := match_at_price_book ob taker best now
        rw [hside] at H
        simp only [OrderBook.oppSide, OrderBook.sameSide] at H
        obtain ⟨f1, hf1⟩ := match_at_price_taker_shape ob taker best now
        rcases hm : ob.match_at_price taker best now with ⟨ot, taker1, ob1⟩
        rw [hm] at hf1 H
        simp only at hf1 H
        subst hf1
        obtain ⟨Hsame, Hkeys, Hsub, Htrade, Hwfp⟩ := H
        rcases ot with _ | t
        · simp only [OrderBook.match_market_go, hside, hb, if_pos hr, hm]
          exact ⟨Hsame, Hsub, by simp, by simp, by simp, Hwfp hwf⟩
        · obtain ⟨hp, m0, hm0, hid0, hwfp0⟩ := Htrade t rfl
          have IH := ih ob1 { taker with filled_quantity := f1 } (now + 1) hside (Hwfp hwf)
          simp only [OrderBook.match_market_go, hside, hb, if_pos hr, hm]
          rw [← hside]
          rw [← hside] at hid0 IH
          refine ⟨IH.1.trans Hsame, ?_, ?_, ?_, ?_, IH.2.2.2.2.2⟩
          · intro o' h
            obtain ⟨m1, hm1, e1, e2⟩ := IH.2.1 o' h
            obtain ⟨m2, hm2, e3, e4⟩ := Hsub m1 hm1
            exact ⟨m2, hm2, e3.trans e1, e4.trans e2⟩
          · intro t' ht'
            rcases List.mem_cons.1 ht' with h2 | h2
            · subst h2
              exact ⟨m0, hm0, hid0, (hwfp0 hwf).trans hp.symm⟩
            · obtain ⟨m1, hm1, e1, e5⟩ := IH.2.2.1 t' h2
              obtain ⟨m2, hm2, e3, e4⟩ := Hsub m1 hm1
              exact ⟨m2, hm2, e1.trans e3.symm, e4.trans e5⟩
          · intro q hq
            simp only [List.map_cons] at hq
            rcases List.mem_cons.1 hq with h2 | h2
            · have hbm : best ∈ sideKeys ob.bids := mem_of_getLast_some _ _ hb
              rw [h2, hp]
              exact hbm
            · exact Hkeys.subset (IH.2.2.2.1 q h2)
          · simp only [List.map_cons]
            refine List.pairwise_cons.2 ⟨?_, IH.2.2.2.2.1⟩
            intro q hq
            have hq2 : q ∈ sideKeys ob.bids := Hkeys.subset (IH.2.2.2.1 q hq)
            rw [hp]
            exact sorted_le_getLast (sideKeys ob.bids) hwf.1 best hb q hq2
    · simp only [OrderBook.match_market_go, hside, if_neg hr]
      exact ⟨by trivial, fun o' h => ⟨o', h, rfl, rfl⟩, by simp, by simp, by simp, hwf⟩

/-- `BTreeMap` entry insertion puts the inserted order at the tail of its price
level, and every order already in that level was already resting on the side. -/
theorem btreeEntryAdd_get (side : List (Rat × PriceLevel)) (p : Rat) (o : Order) :
    ∃ lvl, assocGet (btreeEntryAdd side p o) p = some lvl ∧
      ∃ prev, lvl.orders = prev ++ [o] ∧ ∀ x ∈ prev, x ∈ sideOrders side := by
  induction side with
  | nil =>
    refine ⟨(PriceLevel.new p).add_order o, ?_, [], rfl, by simp⟩
    simp [btreeEntryAdd, assocGet]
  | cons hd tl ih =>
    by_cases h1 : p < hd.1
    · refine ⟨(PriceLevel.new p).add_order o, ?_, [], rfl, by simp⟩
      simp [btreeEntryAdd, h1, assocGet]
    · by_cases h2 : p = hd.1
      · refine ⟨hd.2.add_order o, ?_, hd.2.orders, rfl, ?_⟩
        · simp [btreeEntryAdd, h1, h2, assocGet]
        · intro x hx
          exact mem_sideOrders_of_mem_level _ hd x (List.mem_cons_self _ _) hx
      · obtain ⟨lvl, hget, prev, hprev, hmem⟩ := ih
        refine ⟨lvl, ?_, prev, hprev, ?_⟩
        · have hne : ¬ (hd.1 = p) := fun h => h2 h.symm
          simp only [btreeEntryAdd, if_neg h1, if_neg h2, assocGet, if_neg hne]
          exact hget
        · intro x hx
          exact List.mem_append_right _ (hmem x hx)

/-- The limit taker comes out of `match_limit_order` unchanged except for its
`filled_quantity`. -/
theorem match_limit_order_taker_shape (ob : OrderBook) (taker : Order) (now : Nat) :
    ∃ f, (ob.match_limit_order taker now).2.1 = { taker with filled_quantity := f } := by
  unfold OrderBook.match_limit_order
  cases hside : taker.side with
  | Bid =>
    obtain ⟨f, hf⟩ := match_prices_taker_shape
      ((ob.asks.map Prod.fst).filter (fun p => decide (p ≤ taker.price))) ob taker now
    rw [hside] at hf
    exact ⟨f, hf⟩
  | Ask =>
    obtain ⟨f, hf⟩ := match_prices_taker_shape
      (((ob.bids.map Prod.fst).filter (fun p => decide (taker.price ≤ p))).reverse) ob taker now
    rw [hside] at hf
    exact ⟨f, hf⟩

/-! ### C5: trade prices are maker prices; monotone per taker side -/

/-- C5 (amended): every trade of one `add_order` fills at the price of a maker
that was resting on the opposite side before the call, and the sequence of
trade prices is monotone NON-DECREASING for a Bid taker (asks are swept lowest
first) and NON-INCREASING for an Ask taker (bids are swept highest first) —
the two directions are the opposite of the claim's. -/
theorem C5_trade_prices (ob : OrderBook) (order : Order) (now : Nat) (hwf : ob.wf) :
    (∀ t ∈ (ob.add_order order now).1,
      ∃ m ∈ sideOrders (ob.oppSide order.side),
        tradeMakerOrderId order.side t = m.id ∧ m.price = t.price) ∧
    (order.side = OrderSide.Bid →
      ((ob.add_order order now).1.map Trade.price).Pairwise (· ≤ ·)) ∧
    (order.side = OrderSide.Ask →
      ((ob.add_order order now).1.map Trade.price).Pairwise (fun a b => b ≤ a)) := by
  have htr : (ob.add_order order now).1
      = (if order.order_type = OrderType.Market then ob.match_market_order order now
         else ob.match_limit_order order now).1 := rfl
  rw [htr]
  by_cases hty : order.order_type = OrderType.Market
  · rw [if_pos hty]
    cases hside : order.side with
    | Bid =>
      have H := match_market_go_bid (ob.order_count + 2) ob order now hside hwf.2
      refine ⟨?_, fun _ => H.2.2.2.2.1, fun hc => OrderSide.noConfusion hc⟩
      intro t ht
      exact H.2.2.1 t ht
    | Ask =>
      have H := match_market_go_ask (ob.order_count + 2) ob order now hside hwf.1
      refine ⟨?_, fun hc => OrderSide.noConfusion hc, fun _ => H.2.2.2.2.1⟩
      intro t ht
      exact H.2.2.1 t ht
  · rw [if_neg hty]
    unfold OrderBook.match_limit_order
    cases hside : order.side with
    | Bid =>
      have HP := match_prices_book
        ((ob.asks.map Prod.fst).filter (fun p => decide (p ≤ order.price))) ob order now
      rw [hside] at HP
      simp only [OrderBook.oppSide] at HP
      refine ⟨?_, fun _ => ?_, fun hc => OrderSide.noConfusion hc⟩
      · intro t ht
        obtain ⟨m, hm, e1, e5⟩ := HP.2.2.2.2.1 t ht
        exact ⟨m, hm, e1, e5 hwf.2⟩
      · have hps : ((ob.asks.map Prod.fst).filter
            (fun p => decide (p ≤ order.price))).Pairwise (· < ·) :=
          List.Pairwise.filter _ hwf.2.1
        exact (hps.sublist HP.2.2.2.1).imp le_of_lt
    | Ask =>
      have HP := match_prices_book
        (((ob.bids.map Prod.fst).filter (fun p => decide (order.price ≤ p))).reverse) ob order now
      rw [hside] at HP
      simp only [OrderBook.oppSide] at HP
      refine ⟨?_, fun hc => OrderSide.noConfusion hc, fun _ => ?_⟩
      · intro t ht
        obtain ⟨m, hm, e1, e5⟩ := HP.2.2.2.2.1 t ht
        exact ⟨m, hm, e1, e5 hwf.1⟩
      · have hps : (((ob.bids.map Prod.fst).filter
            (fun p => decide (order.price ≤ p))).reverse).Pairwise (fun a b => b < a) :=
          List.pairwise_reverse.2 (List.Pairwise.filter _ hwf.1.1)
        exact (hps.sublist HP.2.2.2.1).imp le_of_lt

/-- A resting Ask maker: 1 unit at price 10. -/
def makerC5a : Order :=
  { id := 1, request_id := 0, symbol_id := 1, account_id := 10, order_type := .Limit
    side := .Ask, price := 10, quantity := 1, filled_quantity := 0
    status := .Pending, created_at := 0 }

/-- A second resting Ask maker at the higher price 20. -/
def makerC5b : Order :=
  { makerC5a with id := 2, account_id := 11, price := 20 }

/-- Book with two one-maker ask levels, at 10 and at 20. -/
def bookC5 : OrderBook :=
  { symbol_id := 1, bids := []
    asks := [(10, { price := 10, total_quantity := 1, orders := [makerC5a] }),
      (20, { price := 20, total_quantity := 1, orders := [makerC5b] })]
    orders := [(1, makerC5a), (2, makerC5b)] }

/-- Incoming limit Bid taker: 2 units at price 20, crossing both ask levels. -/
def takerC5 : Order :=
  { id := 3, request_id := 0, symbol_id := 1, account_id := 12, order_type := .Limit
    side := .Bid, price := 20, quantity := 2, filled_quantity := 0
    status := .Pending, created_at := 0 }

/-- C5 counterexample: a Bid taker sweeping asks at 10 and 20 produces the
trade price sequence [10, 20], which is NOT monotone non-increasing — the
claim's direction for a Bid taker is the wrong way round (the code sweeps asks
lowest-first, so Bid-taker prices are non-decreasing). -/
theorem C5_counterexample_bid_ascending :
    ((bookC5.add_order takerC5 5).1.map Trade.price = [10, 20]) ∧
    ¬ (((bookC5.add_order takerC5 5).1.map Trade.price).Pairwise (fun a b => b ≤ a)) := by
  with_unfolding_all decide

theorem C5_witness :
    bookC5.wf ∧
    ((∀ t ∈ (bookC5.add_order takerC5 5).1,
        ∃ m ∈ sideOrders (bookC5.oppSide takerC5.side),
          tradeMakerOrderId takerC5.side t = m.id ∧ m.price = t.price) ∧
      (takerC5.side = OrderSide.Bid →
        ((bookC5.add_order takerC5 5).1.map Trade.price).Pairwise (· ≤ ·)) ∧
      (takerC5.side = OrderSide.Ask →
        ((bookC5.add_order takerC5 5).1.map Trade.price).Pairwise (fun a b => b ≤ a))) :=
  ⟨by with_unfolding_all decide, C5_trade_prices bookC5 takerC5 5 (by with_unfolding_all decide)⟩

/-! ### C8: residual limit takers rest at the tail; market takers never rest -/

/-- The bid map of the book returned by `add_order`, before any case split on
whether the residual taker rests. -/
theorem add_order_bids (ob : OrderBook) (order : Order) (now : Nat) :
    (ob.add_order order now).2.bids
      = (let r := if order.order_type = OrderType.Market then ob.match_market_order order now
                  else ob.match_limit_order order now
         (if 0 < r.2.1.remaining_quantity ∧ r.2.1.order_type = OrderType.Limit
          then r.2.2.add_order_to_book r.2.1 else r.2.2).bids) := rfl

/-- The ask map of the book returned by `add_order`. -/
theorem add_order_asks (ob : OrderBook) (order : Order) (now : Nat) :
    (ob.add_order order now).2.asks
      = (let r := if order.order_type = OrderType.Market then ob.match_market_order order now
                  else ob.match_limit_order order now
         (if 0 < r.2.1.remaining_quantity ∧ r.2.1.order_type = OrderType.Limit
          then r.2.2.add_order_to_book r.2.1 else r.2.2).asks) := rfl

/-- C8: for a fresh incoming order id, a market taker never enters either side
of the book, while a limit taker with residual quantity after matching is
appended at the tail of the FIFO queue of its own side's level at its price,
behind only orders that were already resting before the call. -/
theorem C8_residual_taker_placement (ob : OrderBook) (order : Order) (now : Nat)
    (hwf : ob.wf)
    (hfresh : ∀ o ∈ sideOrders ob.bids ++ sideOrders ob.asks, o.id ≠ order.id) :
    (order.order_type = OrderType.Market →
      ∀ o ∈ sideOrders (ob.add_order order now).2.bids
          ++ sideOrders (ob.add_order order now).2.asks, o.id ≠ order.id) ∧
    (order.order_type = OrderType.Limit →
      0 < (ob.match_limit_order order now).2.1.remaining_quantity →
      ∃ lvl, assocGet ((ob.add_order order now).2.sameSide order.side) order.price = some lvl ∧
        ∃ prev, lvl.orders = prev ++ [(ob.match_limit_order order now).2.1] ∧
          (ob.match_limit_order order now).2.1.id = order.id ∧
          ∀ x ∈ prev, x.id ≠ order.id) := by
  constructor
  · intro hty
    obtain ⟨f, hf0⟩ := match_market_go_taker_shape (ob.order_count + 2) ob order now
    have hf : (ob.match_market_order order now).2.1 = { order with filled_quantity := f } := hf0
    have hcond : ¬ (0 < (ob.match_market_order order now).2.1.remaining_quantity
        ∧ (ob.match_market_order order now).2.1.order_type = OrderType.Limit) := by
      intro hc
      have h2 := hc.2
      rw [hf] at h2
      dsimp only at h2
      rw [hty] at h2
      exact OrderType.noConfusion h2
    have hb2 : (ob.add_order order now).2.bids = (ob.match_market_order order now).2.2.bids := by
      rw [add_order_bids]
      simp only [if_pos hty, if_neg hcond]
    have ha2 : (ob.add_order order now).2.asks = (ob.match_market_order order now).2.2.asks := by
      rw [add_order_asks]
      simp only [if_pos hty, if_neg hcond]
    cases hside : order.side with
    | Bid =>
      have H := match_market_go_bid (ob.order_count + 2) ob order now hside hwf.2
      have Hb : (ob.match_market_order order now).2.2.bids = ob.bids := H.1
      have Ha : ∀ o' ∈ sideOrders (ob.match_market_order order now).2.2.asks,
          ∃ m ∈ sideOrders ob.asks, m.id = o'.id ∧ m.price = o'.price := H.2.1
      intro o ho
      rcases List.mem_append.1 ho with h | h
      · rw [hb2, Hb] at h
        exact hfresh o (List.mem_append_left _ h)
      · rw [ha2] at h
        obtain ⟨m, hm, e1, _⟩ := Ha o h
        rw [← e1]
        exact hfresh m (List.mem_append_right _ hm)
    | Ask =>
      have H := match_market_go_ask (ob.order_count + 2) ob order now hside hwf.1
      have Ha : (ob.match_market_order order now).2.2.asks = ob.asks := H.1
      have Hb : ∀ o' ∈ sideOrders (ob.match_market_order order now).2.2.bids,
          ∃ m ∈ sideOrders ob.bids, m.id = o'.id ∧ m.price = o'.price := H.2.1
      intro o ho
      rcases List.mem_append.1 ho with h | h
      · rw [hb2] at h
        obtain ⟨m, hm, e1, _⟩ := Hb o h
        rw [← e1]
        exact hfresh m (List.mem_append_left _ hm)
      · rw [ha2, Ha] at h
        exact hfresh o (List.mem_append_right _ h)
  · intro hty hres
    obtain ⟨f, hfl⟩ := match_limit_order_taker_shape ob order now
    have hcond : 0 < (ob.match_limit_order order now).2.1.remaining_quantity
        ∧ (ob.match_limit_order order now).2.1.order_type = OrderType.Limit := by
      refine ⟨hres, ?_⟩
      rw [hfl]
      exact hty
    have hnty : ¬ (order.order_type = OrderType.Market) := by
      rw [hty]
      exact fun hc => OrderType.noConfusion hc
    have hb2 : (ob.add_order order now).2.bids
        = ((ob.match_limit_order order now).2.2.add_order_to_book
            (ob.match_limit_order order now).2.1).bids := by
      rw [add_order_bids]
      simp only [if_neg hnty, if_pos hcond]
    have ha2 : (ob.add_order order now).2.asks
        = ((ob.match_limit_order order now).2.2.add_order_to_book
            (ob.match_limit_order order now).2.1).asks := by
      rw [add_order_asks]
      simp only [if_neg hnty, if_pos hcond]
    cases hside : order.side with
    | Bid =>
      have hml : ob.match_limit_order order now
          = ob.match_prices order now
              ((ob.asks.map Prod.fst).filter (fun p => decide (p ≤ order.price))) := by
        unfold OrderBook.match_limit_order
        rw [hside]
      have ho1side : (ob.match_limit_order order now).2.1.side = OrderSide.Bid := by
        rw [hfl]
        exact hside
      have hatb : ((ob.match_limit_order order now).2.2.add_order_to_book
          (ob.match_limit_order order now).2.1).bids
          = btreeEntryAdd (ob.match_limit_order order now).2.2.bids
              (ob.match_limit_order order now).2.1.price
              (ob.match_limit_order order now).2.1 := by
        unfold OrderBook.add_order_to_book
        rw [ho1side]
      have HP := match_prices_book
        ((ob.asks.map Prod.fst).filter (fun p => decide (p ≤ order.price))) ob order now
      rw [hside] at HP
      have hob1 : (ob.match_limit_order order now).2.2.bids = ob.bids := by
        rw [hml]
        have h1 := HP.1
        simp only [OrderBook.sameSide] at h1
        exact h1
      simp only [OrderBook.sameSide]
      rw [hb2, hatb, hob1, hfl]
      dsimp only
      obtain ⟨lvl, hget, prev, hprev, hmem⟩ :=
        btreeEntryAdd_get ob.bids order.price { order with filled_quantity := f }
      refine ⟨lvl, hget, prev, hprev, rfl, ?_⟩
      intro x hx
      exact hfresh x (List.mem_append_left _ (hmem x hx))
    | Ask =>
      have hml : ob.match_limit_order order now
          = ob.match_prices order now
              (((ob.bids.map Prod.fst).filter (fun p => decide (order.price ≤ p))).reverse) := by
        unfold OrderBook.match_limit_order
        rw [hside]
      have ho1side : (ob.match_limit_order order now).2.1.side = OrderSide.Ask := by
        rw [hfl]
        exact hside
      have hatb : ((ob.match_limit_order order now).2.2.add_order_to_book
          (ob.match_limit_order order now).2.1).asks
          = btreeEntryAdd (ob.match_limit_order order now).2.2.asks
              (ob.match_limit_order order now).2.1.price
              (ob.match_limit_order order now).2.1 := by
        unfold OrderBook.add_order_to_book
        rw [ho1side]
      have HP := match_prices_book
        (((ob.bids.map Prod.fst).filter (fun p => decide (order.price ≤ p))).reverse) ob order now
      rw [hside] at HP
      have hob1 : (ob.match_limit_order order now).2.2.asks = ob.asks := by
        rw [hml]
        have h1 := HP.1
        simp only [OrderBook.sameSide] at h1
        exact h1
      simp only [OrderBook.sameSide]
      rw [ha2, hatb, hob1, hfl]
      dsimp only
      obtain ⟨lvl, hget, prev, hprev, hmem⟩ :=
        btreeEntryAdd_get ob.asks order.price { order with filled_quantity := f }
      refine ⟨lvl, hget, prev, hprev, rfl, ?_⟩
      intro x hx
      exact hfresh x (List.mem_append_right _ (hmem x hx))

/-- A resting Ask maker for C8: 1 unit at price 10. -/
def makerC8 : Order :=
  { id := 1, request_id := 0, symbol_id := 1, account_id := 10, order_type := .Limit
    side := .Ask, price := 10, quantity := 1, filled_quantity := 0
    status := .Pending, created_at := 0 }

/-- A bid already resting at price 10, ahead of the incoming taker in FIFO. -/
def restingBidC8 : Order :=
  { id := 2, request_id := 0, symbol_id := 1, account_id := 11, order_type := .Limit
    side := .Bid, price := 10, quantity := 1, filled_quantity := 0
    status := .Pending, created_at := 0 }

/-- Book with one ask maker and one resting bid, both at price 10. -/
def bookC8 : OrderBook :=
  { symbol_id := 1
    bids := [(10, { price := 10, total_quantity := 1, orders := [restingBidC8] })]
    asks := [(10, { price := 10, total_quantity := 1, orders := [makerC8] })]
    orders := [(1, makerC8), (2, restingBidC8)] }

/-- Incoming limit Bid taker: 3 units at price 10; 1 unit fills, 2 rest. -/
def takerC8 : Order :=
  { id := 3, request_id := 0, symbol_id := 1, account_id := 12, order_type := .Limit
    side := .Bid, price := 10, quantity := 3, filled_quantity := 0
    status := .Pending, created_at := 0 }

theorem C8_witness :
    bookC8.wf ∧
    (∀ o ∈ sideOrders bookC8.bids ++ sideOrders bookC8.asks, o.id ≠ takerC8.id) ∧
    ((takerC8.order_type = OrderType.Market →
        ∀ o ∈ sideOrders (bookC8.add_order takerC8 5).2.bids
            ++ sideOrders (bookC8.add_order takerC8 5).2.asks, o.id ≠ takerC8.id) ∧
      (takerC8.order_type = OrderType.Limit →
        0 < (bookC8.match_limit_order takerC8 5).2.1.remaining_quantity →
        ∃ lvl, assocGet ((bookC8.add_order takerC8 5).2.sameSide takerC8.side) takerC8.price
            = some lvl ∧
          ∃ prev, lvl.orders = prev ++ [(bookC8.match_limit_order takerC8 5).2.1] ∧
            (bookC8.match_limit_order takerC8 5).2.1.id = takerC8.id ∧
            ∀ x ∈ prev, x.id ≠ takerC8.id)) :=
  ⟨by with_unfolding_all decide, by with_unfolding_all decide,
    C8_residual_taker_placement bookC8 takerC8 5 (by with_unfolding_all decide)
      (by with_unfolding_all decide)⟩

end Lightning
